import Mathlib

/-!
Verification of the essenz content-distillation pipeline
(tree builder, content filter, media substitutor, markdown renderer).

Strings are modelled as lists of characters (`Str`), and the Go string
helpers (`strings.TrimSpace`, `strings.Fields`, `strings.Split`,
`strings.Contains`, ...) are re-implemented over that type.  Whitespace is
modelled as space, tab, carriage return and newline (the characters relevant
to the pipeline's inputs).  Go `float64` link-density comparisons are
modelled exactly over the integers (`linkChars/totalChars > 0.3` becomes
`10*linkChars > 3*totalChars`); no claim below depends on a float rounding
boundary.  Go maps used for attribute storage are modelled as association
lists with insert-replaces-existing-key semantics.
-/

abbrev Str := List Char

def str (s : String) : Str := s.data

/-- Whitespace test used by the Go `strings` helpers as they occur in this
pipeline (space, tab, carriage return, newline). -/
def isWS (c : Char) : Bool :=
  c = ' ' || c = '\t' || c = '\n' || c = '\r'

/-- Left part of Go `strings.TrimSpace`: drop leading whitespace. -/
def trimLeftWS (s : Str) : Str := s.dropWhile isWS

/-- Right part of Go `strings.TrimSpace`: drop trailing whitespace. -/
def trimRightWS (s : Str) : Str := (trimLeftWS s.reverse).reverse

/-- Go `strings.TrimSpace` (trim both ends). -/
def trimSpace (s : Str) : Str := trimLeftWS (trimRightWS s)

/-- Go `strings.ToLower`, ASCII part (the tags and class names compared in
the pipeline are ASCII). -/
def toLowerStr (s : Str) : Str := s.map Char.toLower

/-- Go `strings.EqualFold`, ASCII part. -/
def eqFold (a b : Str) : Bool := toLowerStr a == toLowerStr b

/-- Helper for `containsSub`: does `pat` start at some position of `s`? -/
def containsSubAux (pat : Str) : Str → Bool
  | [] => pat.isEmpty
  | c :: rest => pat.isPrefixOf (c :: rest) || containsSubAux pat rest

/-- Go `strings.Contains`. -/
def containsSub (s pat : Str) : Bool := containsSubAux pat s

/-- Go `strings.HasPrefix`. -/
def startsWith (s pre : Str) : Bool := pre.isPrefixOf s

/-- Go `strings.HasSuffix`. -/
def endsWith (s suf : Str) : Bool := suf.isSuffixOf s

/-- Go `strings.TrimPrefix`. -/
def trimPre (s pre : Str) : Str :=
  if startsWith s pre then s.drop pre.length else s

/-- Go `strings.Split` with a one-character separator. -/
def splitOnChar (sep : Char) : Str → List Str
  | [] => [[]]
  | c :: rest =>
    match splitOnChar sep rest with
    | [] => [[]]
    | p :: ps => if c = sep then [] :: p :: ps else (c :: p) :: ps

/-- Go `strings.Join`. -/
def joinSep (sep : Str) : List Str → Str
  | [] => []
  | [x] => x
  | x :: xs => x ++ sep ++ joinSep sep xs

/-- Split on maximal runs of separator characters, keeping empty pieces at
the two ends, as Go `regexp.Split` with a `[...]+` pattern does. -/
def splitRuns (p : Char → Bool) : Str → List Str
  | [] => [[]]
  | c :: rest =>
    let r := splitRuns p rest
    if p c then
      match rest with
      | [] => [[], []]
      | d :: _ => if p d then r else [] :: r
    else
      match r with
      | [] => [[]]
      | q :: qs => (c :: q) :: qs

/-- Go `strings.Fields`: whitespace-separated words. -/
def fieldsGo (s : Str) : List Str :=
  (splitRuns isWS s).filter (fun w => !w.isEmpty)

/-- Go `strings.Repeat` for a one-character string. -/
def repeatC (c : Char) (n : Nat) : Str := List.replicate n c

/-- Decimal rendering of a counter, as Go `fmt.Sprintf("%d", n)`. -/
def natToStr (n : Nat) : Str := Nat.toDigits 10 n

/-!
## Document tree data model (src/internal/tree/builder.go, type TextNode)

The Go `Parent` back-pointer is not stored: it is a non-owning reference
used only for sibling/ancestor lookups, and those lookups are modelled by
passing the surrounding context explicitly where the code reads it
(media context analysis).  `Depth` and `Index` are kept as data.
-/

structure TextNode where
  tag : Str
  text : Str
  attrs : List (Str × Str)
  children : List TextNode
  depth : Int
  index : Int
deriving Repr

/-- Go map read `m[k]` together with its `exists` flag: first matching key
(keys are unique because insertion replaces). -/
def lookupAttr (attrs : List (Str × Str)) (k : Str) : Option Str :=
  (attrs.find? (fun kv => kv.1 == k)).map (fun kv => kv.2)

/-- Go map read `m[k]` without the flag (zero value `""` when absent). -/
def getAttr (attrs : List (Str × Str)) (k : Str) : Str :=
  (lookupAttr attrs k).getD []

/-- Go map write `m[k] = v`: replace an existing binding or append. -/
def putAttr (attrs : List (Str × Str)) (k v : Str) : List (Str × Str) :=
  if (attrs.find? (fun kv => kv.1 == k)).isSome then
    attrs.map (fun kv => if kv.1 == k then (kv.1, v) else kv)
  else
    attrs ++ [(k, v)]

/-!
## Content filter (src/internal/filter)

`NewContentFilter` installs, in order, `SemanticTagFilter` (priority 100),
`ClassNameFilter` (priority 80), `LinkDensityFilter(0.3, 5)` (priority 60)
and `LengthFilter(10)` (priority 40).  Every default rule ignores the
`FilterContext` argument (each declares it `_`), and the `MaxLinkDensity`,
`MinContentLength`, `AggressiveMode` and `DebugMode` configuration fields
are not read by any rule, so only the whitelist part of the configuration
can influence the result; the full configuration record is kept anyway.
`DocumentStats` are computed by `FilterTree` but read by no default rule,
so they are not threaded here.
-/

structure FilterConfig where
  maxLinkDensityNum : Nat
  maxLinkDensityDen : Nat
  minContentLength : Nat
  preserveWhitelist : List Str
  aggressiveMode : Bool
  debugMode : Bool

/-- Default configuration built by `NewContentFilter` (filter.go lines 60-79). -/
def defaultFilterConfig : FilterConfig :=
  { maxLinkDensityNum := 2, maxLinkDensityDen := 10
    minContentLength := 20
    preserveWhitelist :=
      [str "main", str "article", str ".content", str ".post", str ".entry",
       str ".main-article", str ".main-content"]
    aggressiveMode := false
    debugMode := false }

/-- SemanticTagFilter.ShouldExclude (priority 100). -/
def semanticTagShouldExclude (n : TextNode) : Bool :=
  let t := toLowerStr n.tag
  t == str "nav" || t == str "header" || t == str "footer" || t == str "aside" ||
  t == str "script" || t == str "style" || t == str "noscript"

/-- Pattern vocabulary of ClassNameFilter. -/
def classNameExcludePatterns : List Str :=
  [str "nav", str "menu", str "navigation", str "navbar", str "nav-menu",
   str "navigation-menu",
   str "sidebar", str "aside", str "header", str "footer",
   str "ad", str "ads", str "advertisement", str "sponsored", str "promo",
   str "social", str "share", str "sharing", str "social-share",
   str "social-media",
   str "comment", str "comments", str "comment-section", str "disqus",
   str "related", str "related-posts", str "related-links",
   str "you-might-like", str "similar", str "related-content",
   str "breadcrumb", str "breadcrumbs", str "pagination", str "pager",
   str "skip", str "sr-only", str "screen-reader", str "hidden",
   str "invisible"]

/-- ClassNameFilter.isWordBoundaryMatch. -/
def isWordBoundaryMatch (value pattern : Str) : Bool :=
  value == pattern ||
  ([' ', '-', '_', '.'].any (fun sep =>
    (splitOnChar sep value).any (fun part => part == pattern))) ||
  startsWith value (pattern ++ str "-") ||
  startsWith value (pattern ++ str "_") ||
  endsWith value (str "-" ++ pattern) ||
  endsWith value (str "_" ++ pattern)

/-- ClassNameFilter.matchesPattern. -/
def matchesPattern (value : Str) : Bool :=
  classNameExcludePatterns.any (fun pattern =>
    containsSub value pattern && isWordBoundaryMatch value pattern)

/-- ClassNameFilter.ShouldExclude (priority 80). -/
def classNameShouldExclude (n : TextNode) : Bool :=
  (match lookupAttr n.attrs (str "class") with
   | some v => matchesPattern (toLowerStr v)
   | none => false) ||
  (match lookupAttr n.attrs (str "id") with
   | some v => matchesPattern (toLowerStr v)
   | none => false)

mutual

/-- LinkDensityFilter.collectNodeStats: (linkChars, totalChars, wordCount). -/
def ldCollect (inLink : Bool) : TextNode → Nat × Nat × Nat
  | ⟨tg, tx, _, cs, _, _⟩ =>
    if tg = str "#text" then
      let t := trimSpace tx
      (if inLink then t.length else 0, t.length, (fieldsGo t).length)
    else
      ldCollectList (inLink || toLowerStr tg = str "a") cs

def ldCollectList (inLink : Bool) : List TextNode → Nat × Nat × Nat
  | [] => (0, 0, 0)
  | c :: cs =>
    let a := ldCollect inLink c
    let b := ldCollectList inLink cs
    (a.1 + b.1, a.2.1 + b.2.1, a.2.2 + b.2.2)

end

/-- Structural tags exempt from the link-density rule. -/
def ldStructuralTags : List Str :=
  [str "document", str "html", str "head", str "body", str "main",
   str "article", str "section"]

/-- LinkDensityFilter.ShouldExclude with maxDensity 0.3 and minWords 5 as
installed by `NewContentFilter` (the `density > 0.3` float comparison is
modelled exactly as `10*linkChars > 3*totalChars`). -/
def linkDensityShouldExclude (n : TextNode) : Bool :=
  if n.tag = str "#text" then false
  else if ldStructuralTags.contains (toLowerStr n.tag) then false
  else
    let s := ldCollect false n
    if s.2.2 < 5 || s.2.1 < 50 then false
    else decide (10 * s.1 > 3 * s.2.1)

/-- LengthFilter.isStructuralElement. -/
def lengthIsStructural (n : TextNode) : Bool :=
  let t := toLowerStr n.tag
  [str "main", str "article", str "section", str "div", str "header",
   str "footer", str "nav", str "aside", str "h1", str "h2", str "h3",
   str "h4", str "h5", str "h6"].contains t

mutual

/-- LengthFilter.extractAllText. -/
def lengthExtractAllText : TextNode → Str
  | ⟨tg, tx, _, cs, _, _⟩ =>
    if tg = str "#text" then tx
    else joinSep (str " ") (lengthExtractParts cs)

def lengthExtractParts : List TextNode → List Str
  | [] => []
  | c :: cs =>
    let t := lengthExtractAllText c
    if t = [] then lengthExtractParts cs else t :: lengthExtractParts cs

end

/-- Tags of LengthFilter.hasImportantChildren's switch. -/
def importantChildTag (t : Str) : Bool :=
  [str "h1", str "h2", str "h3", str "h4", str "h5", str "h6", str "img",
   str "table", str "ul", str "ol", str "dl", str "blockquote", str "code",
   str "pre"].contains t

/-- Class test of LengthFilter.hasImportantChildren. -/
def importantChildClass (n : TextNode) : Bool :=
  match lookupAttr n.attrs (str "class") with
  | some v =>
    let cl := toLowerStr v
    containsSub cl (str "important") || containsSub cl (str "highlight") ||
    containsSub cl (str "note") || containsSub cl (str "warning") ||
    containsSub cl (str "alert")
  | none => false

mutual

/-- LengthFilter.hasImportantChildren. -/
def hasImportantChildren : TextNode → Bool
  | ⟨_, _, _, cs, _, _⟩ => hasImportantChildrenList cs

def hasImportantChildrenList : List TextNode → Bool
  | [] => false
  | c :: cs =>
    importantChildTag (toLowerStr c.tag) || importantChildClass c ||
    hasImportantChildren c || hasImportantChildrenList cs

end

/-- LengthFilter.ShouldExclude with the minLength installed by
`NewContentFilter`, namely 10 (the source checks `Tag == "#text"` twice;
one check suffices in the model). -/
def lengthShouldExclude (minLength : Nat) (n : TextNode) : Bool :=
  if n.tag = str "#text" then false
  else if lengthIsStructural n then false
  else
    let totalLength := (trimSpace (lengthExtractAllText n)).length
    if totalLength < minLength then !hasImportantChildren n
    else false

/-- Combined verdict of the two rules with priority at least 80, in
installation order (SemanticTagFilter, then ClassNameFilter); these run
before the whitelist check in `filterNode`. -/
def highPriorityExclude (n : TextNode) : Bool :=
  semanticTagShouldExclude n || classNameShouldExclude n

/-- Combined verdict of the two rules with priority below 80, in
installation order (LinkDensityFilter, then LengthFilter). -/
def lowPriorityExclude (n : TextNode) : Bool :=
  linkDensityShouldExclude n || lengthShouldExclude 10 n

/-- ContentFilter.isWhitelisted. -/
def isWhitelisted (cfg : FilterConfig) (n : TextNode) : Bool :=
  cfg.preserveWhitelist.any (fun selector =>
    if startsWith selector (str ".") then
      let className := trimPre selector (str ".")
      match lookupAttr n.attrs (str "class") with
      | some classValue => containsSub classValue className
      | none => false
    else
      eqFold n.tag selector)

mutual

/-- ContentFilter.filterNode: `none` means the node and its whole subtree
are removed.  Context cancellation and debug logging are omitted. -/
def filterNode (cfg : FilterConfig) : TextNode → Option TextNode
  | n@⟨tg, tx, a, cs, d, i⟩ =>
    if highPriorityExclude n then none
    else if !isWhitelisted cfg n && lowPriorityExclude n then none
    else some ⟨tg, tx, a, filterNodes cfg cs, d, i⟩

/-- ContentFilter.filterChildren's loop over the children. -/
def filterNodes (cfg : FilterConfig) : List TextNode → List TextNode
  | [] => []
  | c :: cs =>
    match filterNode cfg c with
    | none => filterNodes cfg cs
    | some f => f :: filterNodes cfg cs

end

/-- The empty placeholder root substituted by `FilterTree` when the whole
tree is excluded (filter.go lines 133-143; `Depth` is left at its zero
value). -/
def emptyDocumentRoot : TextNode :=
  ⟨str "document", [], [], [], 0, 0⟩

/-- Result of ContentFilter.FilterTree on a non-nil root. -/
def filterTreeResult (cfg : FilterConfig) (root : TextNode) : TextNode :=
  match filterNode cfg root with
  | some f => f
  | none => emptyDocumentRoot

/-- ContentFilter.FilterTree: `root` is a Go pointer, so the argument and
the result are `Option TextNode`; a nil root yields the error return. -/
def FilterTree (cfg : FilterConfig) (root : Option TextNode) :
    Except Str (Option TextNode) :=
  match root with
  | none => Except.error (str "root node cannot be nil")
  | some r => Except.ok (some (filterTreeResult cfg r))

/-!
## Media substitutor (src/internal/media)

The Go tree carries `Parent` pointers that the context analyzer follows.
In the model the surroundings of the node being processed are passed
explicitly: `PInfo` holds the parent's tag together with the previous
siblings (already processed, i.e. in their current state) and the next
siblings (still unprocessed), exactly the state `node.Parent.Children` has
at the moment the Go code processes the node; `ancTexts` holds, for the
grandparent and each higher ancestor, the value
`getDirectTextContent(ancestor)` had when processing entered the current
subtree (direct `#text` children of an ancestor never change while a
deeper subtree is being processed, so that value is stable).
-/

/-- Surroundings of the node being processed: parent tag, previous siblings
(processed), next siblings (unprocessed). -/
structure PInfo where
  tag : Str
  left : List TextNode
  right : List TextNode

inductive MediaType where
  | IMAGE | VIDEO | AUDIO | CHART | DIAGRAM | SOCIAL_EMBED | INTERACTIVE
deriving Repr, DecidableEq

/-- Detected media element (detectors.go `MediaElement`; the unused
`Metadata` map is omitted). -/
structure MediaElement where
  type : MediaType
  description : Str
  url : Str
  alternative : Str
deriving Repr

/-- media.go `MediaReplacement` (the never-written `Dimensions` field is
omitted). -/
structure MediaReplacement where
  type : MediaType
  description : Str
  url : Str
  caption : Str
  context : Str
  alternative : Str
deriving Repr

/-- media.go `MediaConfig`. -/
structure MediaConfig where
  includeImageURLs : Bool
  includeVideoDuration : Bool
  generateDescriptions : Bool
  maxDescriptionLength : Nat
  preferAltText : Bool
  contextRadius : Nat
  includeDecorativeImages : Bool

/-- Default configuration of `NewMediaHandler`. -/
def defaultMediaConfig : MediaConfig :=
  { includeImageURLs := false
    includeVideoDuration := true
    generateDescriptions := true
    maxDescriptionLength := 200
    preferAltText := true
    contextRadius := 20
    includeDecorativeImages := false }

/-- Social-embed class test shared by media.go `isMediaElement` and
detectors.go `SocialEmbedDetector.CanHandle`. -/
def socialClassMatch (classValue : Str) : Bool :=
  let cl := toLowerStr classValue
  containsSub cl (str "twitter-tweet") || containsSub cl (str "instagram-media") ||
  containsSub cl (str "linkedin-embed")

mutual

/-- media.go `isMediaElement`. -/
def isMediaElement : TextNode → Bool
  | ⟨tg, _, a, cs, _, _⟩ =>
    let t := toLowerStr tg
    if t = str "img" || t = str "picture" || t = str "video" ||
       t = str "audio" || t = str "canvas" || t = str "svg" then true
    else if t = str "blockquote" then
      match lookupAttr a (str "class") with
      | some v => socialClassMatch v
      | none => false
    else if t = str "figure" then containsMediaChildList cs
    else false

/-- media.go `containsMediaChild`, over a children list. -/
def containsMediaChildList : List TextNode → Bool
  | [] => false
  | c :: cs =>
    isMediaElement c ||
    (match c with
     | ⟨_, _, _, ccs, _, _⟩ => containsMediaChildList ccs) ||
    containsMediaChildList cs

end

mutual

/-- Recursive text extraction shared (with identical bodies) by
`ContextAnalyzer.extractTextFromNode`, `SocialEmbedDetector.getNodeText`
and `InteractiveMediaDetector.getNodeText`. -/
def getNodeTextR : TextNode → Str
  | ⟨tg, tx, _, cs, _, _⟩ =>
    if tg = str "#text" then trimSpace tx
    else joinSep (str " ") (getNodeTextParts cs)

def getNodeTextParts : List TextNode → List Str
  | [] => []
  | c :: cs =>
    let t := getNodeTextR c
    if t = [] then getNodeTextParts cs else t :: getNodeTextParts cs

end

/-- ContextAnalyzer.getDirectTextContent over a children list. -/
def directTextContentList (cs : List TextNode) : Str :=
  joinSep (str " ")
    ((cs.filterMap (fun c =>
      if c.tag = str "#text" then
        let t := trimSpace c.text
        if t = [] then none else some t
      else none)))

/-- ContextAnalyzer.limitWords. -/
def limitWords (text : Str) (maxWords : Nat) : Str :=
  if text = [] then []
  else
    let words := fieldsGo text
    if words.length ≤ maxWords then text
    else joinSep (str " ") (words.take maxWords) ++ str "..."

/-- Texts of a sibling list in document order, empty extracts skipped
(ContextAnalyzer.getPreviousSiblingText / getNextSiblingText). -/
def siblingText (sibs : List TextNode) : Str :=
  joinSep (str " ")
    ((sibs.filterMap (fun s =>
      let t := getNodeTextR s
      if t = [] then none else some t)))

/-- ContextAnalyzer.getParentContext: first non-empty direct-text content
walking up the ancestor chain. -/
def parentContextOf (ancTexts : List Str) : Str :=
  match ancTexts.find? (fun t => !t.isEmpty) with
  | some t => t
  | none => []

/-- ContextAnalyzer.ExtractContext with the default 20-word radius wired by
`NewMediaHandler`; `none` parent means the Go `node.Parent == nil` early
return. -/
def extractContext (cfg : MediaConfig) (anc : List Str) (pinfo : Option PInfo)
    (n : TextNode) : Str :=
  match pinfo with
  | none => []
  | some p =>
    let prevText := siblingText p.left
    let nextText := siblingText p.right
    let parts :=
      (if prevText = [] then [] else [prevText]) ++
      (if nextText = [] then [] else [nextText])
    let parts :=
      if parts = [] then
        let parentText :=
          parentContextOf (directTextContentList (p.left ++ n :: p.right) :: anc)
        if parentText = [] then [] else [parentText]
      else parts
    limitWords (joinSep (str " ") parts) cfg.contextRadius

mutual

/-- ContextAnalyzer.findFigcaption: search a node's children for the first
figcaption. -/
def findFigcaption : TextNode → Str
  | ⟨_, _, _, cs, _, _⟩ => findFigcaptionList cs

/-- The child loop of ContextAnalyzer.findFigcaption. -/
def findFigcaptionList : List TextNode → Str
  | [] => []
  | c :: cs =>
    if toLowerStr c.tag = str "figcaption" then getNodeTextR c
    else
      let r := findFigcaption c
      if r = [] then findFigcaptionList cs else r

end

/-- ContextAnalyzer.FindAssociatedCaption.  When the parent is a `figure`,
the source returns `findFigcaption(parent)` even if that is empty, skipping
the `title` fallback; this is modelled exactly. -/
def findAssociatedCaption (pinfo : Option PInfo) (n : TextNode) : Str :=
  let own := findFigcaption n
  if own ≠ [] then own
  else
    match pinfo with
    | some p =>
      let sibs := p.left ++ n :: p.right
      match sibs.find? (fun s => toLowerStr s.tag == str "figcaption") with
      | some sib => getNodeTextR sib
      | none =>
        if toLowerStr p.tag = str "figure" then findFigcaptionList sibs
        else match lookupAttr n.attrs (str "title") with
             | some t => if t ≠ [] then t else []
             | none => []
    | none =>
      match lookupAttr n.attrs (str "title") with
      | some t => if t ≠ [] then t else []
      | none => []

/-- Piece of `url` after its last occurrence of `c`, when `c` occurs
(Go `strings.LastIndex` followed by slicing). -/
def afterLastChar (c : Char) (s : Str) : Option Str :=
  if s.contains c then some ((splitOnChar c s).getLast!) else none

/-- Piece of `url` before its last occurrence of `c`, when `c` occurs. -/
def beforeLastChar (c : Char) (s : Str) : Option Str :=
  if s.contains c then some (joinSep [c] (splitOnChar c s).dropLast) else none

/-- detectors.go ImageDetector.CanHandle. -/
def imageCanHandle (n : TextNode) : Bool :=
  let t := toLowerStr n.tag
  t == str "img" || t == str "picture"

mutual

/-- detectors.go ImageDetector.Extract. -/
def imageExtract : TextNode → List MediaElement
  | ⟨tg, _, a, cs, _, _⟩ =>
    let t := toLowerStr tg
    if t = str "img" then
      let url := getAttr a (str "src")
      let desc :=
        if getAttr a (str "alt") ≠ [] then getAttr a (str "alt")
        else if getAttr a (str "title") ≠ [] then getAttr a (str "title")
        else []
      let alt := if desc = [] then str "image" else desc
      [⟨MediaType.IMAGE, desc, url, alt⟩]
    else if t = str "picture" then imageExtractList cs
    else []

/-- The `picture` branch of ImageDetector.Extract: recurse into `img`
children. -/
def imageExtractList : List TextNode → List MediaElement
  | [] => []
  | c :: cs =>
    (if toLowerStr c.tag = str "img" then imageExtract c else []) ++
    imageExtractList cs

end

/-- First `source` child carrying a non-empty `src`, returning that `src`
and the `type` attribute (detectors.go video/audio source scan). -/
def findSourceChild (cs : List TextNode) : Option (Str × Str) :=
  (cs.find? (fun c =>
    toLowerStr c.tag == str "source" && getAttr c.attrs (str "src") ≠ [])).map
    (fun c => (getAttr c.attrs (str "src"), getAttr c.attrs (str "type")))

/-- Filename-derived description used by the video and audio detectors:
piece after the last `/` (only when a `/` occurs), then before the last `.`
(only when a `.` occurs in that piece), with `-` and `_` replaced by
spaces; `dflt` otherwise. -/
def mediaFileDescription (dflt url : Str) : Str :=
  if url = [] then dflt
  else
    match afterLastChar '/' url with
    | none => dflt
    | some filename =>
      match beforeLastChar '.' filename with
      | none => dflt
      | some name =>
        (name.map (fun c => if c = '-' then ' ' else c)).map
          (fun c => if c = '_' then ' ' else c)

/-- detectors.go VideoDetector.CanHandle. -/
def videoCanHandle (n : TextNode) : Bool := toLowerStr n.tag == str "video"

/-- detectors.go VideoDetector.Extract. -/
def videoExtract (n : TextNode) : List MediaElement :=
  let fromAttr := getAttr n.attrs (str "src")
  let (videoURL, videoFormat) :=
    if fromAttr ≠ [] then (fromAttr, ([] : Str))
    else match findSourceChild n.children with
         | some (u, ty) => (u, ty)
         | none => ([], [])
  let desc0 := mediaFileDescription (str "video") videoURL
  let desc :=
    if videoFormat ≠ [] then
      match splitOnChar '/' videoFormat with
      | _ :: sub :: _ =>
        desc0 ++ str " (" ++ (sub.map Char.toUpper) ++ str " format)"
      | _ => desc0
    else desc0
  [⟨MediaType.VIDEO, desc, videoURL, desc⟩]

/-- detectors.go AudioDetector.CanHandle. -/
def audioCanHandle (n : TextNode) : Bool := toLowerStr n.tag == str "audio"

/-- detectors.go AudioDetector.Extract. -/
def audioExtract (n : TextNode) : List MediaElement :=
  let fromAttr := getAttr n.attrs (str "src")
  let audioURL :=
    if fromAttr ≠ [] then fromAttr
    else match findSourceChild n.children with
         | some (u, _) => u
         | none => []
  let desc := mediaFileDescription (str "audio") audioURL
  [⟨MediaType.AUDIO, desc, audioURL, desc⟩]

/-- detectors.go SocialEmbedDetector.CanHandle. -/
def socialCanHandle (n : TextNode) : Bool :=
  toLowerStr n.tag == str "blockquote" &&
  (getAttr n.attrs (str "class") ≠ [] && socialClassMatch (getAttr n.attrs (str "class")))

/-- detectors.go SocialEmbedDetector platform resolution. -/
def socialPlatform (classLower : Str) : Str :=
  if containsSub classLower (str "twitter-tweet") then str "Twitter"
  else if containsSub classLower (str "instagram-media") then str "Instagram"
  else if containsSub classLower (str "linkedin-embed") then str "LinkedIn"
  else []

/-- detectors.go SocialEmbedDetector.extractTextContent: texts of `p`
children that are non-empty and do not start with `http`, joined by
spaces. -/
def socialTextContent (cs : List TextNode) : Str :=
  joinSep (str " ")
    (cs.filterMap (fun c =>
      if toLowerStr c.tag = str "p" then
        let t := getNodeTextR c
        if t ≠ [] && !startsWith t (str "http") then some t else none
      else none))

/-- detectors.go SocialEmbedDetector.extractAttribution. -/
def socialAttribution (cs : List TextNode) (platform : Str) : Str :=
  let hit := cs.find? (fun c =>
    toLowerStr c.tag == str "a" &&
    (let href := getAttr c.attrs (str "href")
     let t := getNodeTextR c
     if platform = str "Twitter" then
       containsSub href (str "twitter.com") && startsWith t (str "@")
     else if platform = str "Instagram" then
       containsSub href (str "instagram.com")
     else if platform = str "LinkedIn" then
       containsSub href (str "linkedin.com")
     else false))
  match hit with
  | some c => getNodeTextR c
  | none => []

/-- detectors.go SocialEmbedDetector.Extract. -/
def socialExtract (n : TextNode) : List MediaElement :=
  let platform := socialPlatform (toLowerStr (getAttr n.attrs (str "class")))
  let content := socialTextContent n.children
  let attribution := socialAttribution n.children platform
  let alt :=
    if attribution ≠ [] then
      content ++ str "\n\n— " ++ attribution ++ str " on " ++ platform
    else content
  [⟨MediaType.SOCIAL_EMBED, content, [], alt⟩]

/-- detectors.go InteractiveMediaDetector.CanHandle. -/
def interactiveCanHandle (n : TextNode) : Bool :=
  toLowerStr n.tag == str "canvas" || toLowerStr n.tag == str "svg"

/-- detectors.go InteractiveMediaDetector.Extract. -/
def interactiveExtract (n : TextNode) : List MediaElement :=
  let t := toLowerStr n.tag
  let desc :=
    if t = str "canvas" then
      if getAttr n.attrs (str "title") ≠ [] then getAttr n.attrs (str "title")
      else str "interactive canvas element"
    else
      let base :=
        if getAttr n.attrs (str "title") ≠ [] then getAttr n.attrs (str "title")
        else str "vector graphic"
      match n.children.find? (fun c =>
        toLowerStr c.tag == str "title" && getNodeTextR c ≠ []) with
      | some c => getNodeTextR c
      | none => base
  [⟨MediaType.INTERACTIVE, desc, [], desc⟩]

/-- media.go `generateReplacement` detector loop: detectors in registration
order (image, video, audio, social, interactive); a detector is chosen when
it can handle the node and extracts at least one element; the first
extracted element is used. -/
def runDetectors (n : TextNode) : Option MediaElement :=
  (if imageCanHandle n then imageExtract n else []).head? <|>
  (if videoCanHandle n then videoExtract n else []).head? <|>
  (if audioCanHandle n then audioExtract n else []).head? <|>
  (if socialCanHandle n then socialExtract n else []).head? <|>
  (if interactiveCanHandle n then interactiveExtract n else []).head?

/-- media.go isCommonWord. -/
def isCommonWord (w : Str) : Bool :=
  [str "the", str "and", str "for", str "are", str "but", str "not",
   str "you", str "all", str "can", str "her", str "was", str "one",
   str "our", str "had", str "day", str "get", str "use", str "man",
   str "new", str "now", str "way", str "may", str "say", str "img",
   str "src", str "alt", str "jpg", str "png", str "gif",
   str "jpeg"].contains w

/-- media.go extractDescriptiveWordsFromURL (here both the `/` and the `.`
slicing are independent, unlike the video/audio detectors). -/
def descriptiveWordsFromURL (url : Str) : List Str :=
  let filename := match afterLastChar '/' url with
                  | some f => f
                  | none => url
  let filename := match beforeLastChar '.' filename with
                  | some f => f
                  | none => filename
  let words := splitRuns (fun c => c = '-' || c = '_' || isWS c) filename
  words.filterMap (fun w =>
    let w := toLowerStr (trimSpace w)
    if w.length > 2 && !isCommonWord w then some w else none)

/-- Descriptive vocabulary of media.go extractRelevantContextWords. -/
def descriptivePatterns : List Str :=
  [str "architecture", str "building", str "design", str "chart",
   str "graph", str "diagram", str "photo", str "picture",
   str "illustration", str "screenshot", str "logo", str "icon",
   str "modern", str "vintage", str "colorful", str "large", str "small",
   str "beautiful"]

/-- media.go extractRelevantContextWords. -/
def relevantContextWords (context : Str) : List Str :=
  (fieldsGo (toLowerStr context)).filter (fun w =>
    descriptivePatterns.any (fun pat => containsSub w pat))

/-- media.go generateDescriptionFromContext with the default
`MaxDescriptionLength` of 200. -/
def genDescriptionFromContext (maxLen : Nat) (context url : Str) : Str :=
  let parts :=
    (if url ≠ [] then
      let urlParts := descriptiveWordsFromURL url
      if urlParts ≠ [] then [joinSep (str " ") urlParts] else []
     else []) ++
    (if context ≠ [] then
      let cw := relevantContextWords context
      if cw ≠ [] then [joinSep (str " ") cw] else []
     else [])
  if parts ≠ [] then
    let description := joinSep (str ", ") parts
    if description.length > maxLen then description.take maxLen ++ str "..."
    else description
  else str "image"

/-- media.go createReplacement (context and caption are supplied by the
caller, as in `processNode`). -/
def createReplacement (cfg : MediaConfig) (e : MediaElement)
    (context caption : Str) : MediaReplacement :=
  let desc :=
    if e.description = [] && cfg.generateDescriptions then
      genDescriptionFromContext cfg.maxDescriptionLength context e.url
    else e.description
  ⟨e.type, desc, e.url, caption, context, e.alternative⟩

/-- media.go createFallbackReplacement (no caption is set on this path). -/
def createFallbackReplacement (n : TextNode) (context : Str) :
    MediaReplacement :=
  let desc :=
    if getAttr n.attrs (str "alt") ≠ [] then getAttr n.attrs (str "alt")
    else if getAttr n.attrs (str "title") ≠ [] then getAttr n.attrs (str "title")
    else str "Unknown media element"
  ⟨MediaType.IMAGE, desc, [], [], context, desc⟩

/-!
Markdown generation for media replacements (generator.go).  The generator
configuration is the one wired by `NewMediaHandler` (`ImageFormat`
"descriptive", URLs not included); `WithConfig` never rebuilds the
generator, so this configuration is constant.
-/

structure GeneratorConfig where
  imageFormat : Str
  videoFormat : Str
  audioFormat : Str
  includeURLs : Bool
  useDescriptiveText : Bool

/-- Generator configuration wired by `NewMediaHandler`. -/
def defaultGeneratorConfig : GeneratorConfig :=
  { imageFormat := str "descriptive"
    videoFormat := str "descriptive"
    audioFormat := str "descriptive"
    includeURLs := false
    useDescriptiveText := true }

/-- generator.go generateImageMarkdown. -/
def generateImageMarkdown (cfg : GeneratorConfig) (r : MediaReplacement) : Str :=
  if cfg.imageFormat = str "markdown" && r.url ≠ [] then
    let alt := if r.description = [] then r.alternative else r.description
    str "![" ++ alt ++ str "](" ++ r.url ++ str ")"
  else
    let desc0 := if r.description = [] then r.alternative else r.description
    let desc := if desc0 = [] then str "image" else desc0
    let parts :=
      [str "An image: " ++ desc] ++
      (if r.caption ≠ [] then [str "*" ++ r.caption ++ str "*"] else [])
    joinSep (str "\n") parts

/-- generator.go generateVideoMarkdown. -/
def generateVideoMarkdown (r : MediaReplacement) : Str :=
  let desc0 := if r.description = [] then r.alternative else r.description
  let desc := if desc0 = [] then str "video" else desc0
  let parts :=
    [str "A video: " ++ desc] ++
    (if r.caption ≠ [] then [str "*" ++ r.caption ++ str "*"] else [])
  joinSep (str "\n") parts

/-- generator.go generateAudioMarkdown. -/
def generateAudioMarkdown (r : MediaReplacement) : Str :=
  let desc0 := if r.description = [] then r.alternative else r.description
  let desc := if desc0 = [] then str "audio" else desc0
  let parts :=
    [str "An audio: " ++ desc] ++
    (if r.caption ≠ [] then [str "*" ++ r.caption ++ str "*"] else [])
  joinSep (str "\n") parts

/-- generator.go generateSocialMarkdown: non-blank lines of the content,
each trimmed and prefixed with a quote marker. -/
def generateSocialMarkdown (r : MediaReplacement) : Str :=
  let content := if r.description = [] then r.alternative else r.description
  joinSep (str "\n")
    ((splitOnChar '\n' content).filterMap (fun line =>
      let line := trimSpace line
      if line ≠ [] then some (str "> " ++ line) else none))

/-- generator.go generateInteractiveMarkdown. -/
def generateInteractiveMarkdown (r : MediaReplacement) : Str :=
  let desc0 := if r.description = [] then r.alternative else r.description
  let desc := if desc0 = [] then str "interactive element" else desc0
  str "An interactive element: " ++ desc

/-- generator.go generateDefaultMarkdown. -/
def generateDefaultMarkdown (r : MediaReplacement) : Str :=
  let desc0 := if r.description = [] then r.alternative else r.description
  let desc := if desc0 = [] then str "media element" else desc0
  str "A media element: " ++ desc

/-- generator.go GenerateMarkdown. -/
def generateMarkdownFor (cfg : GeneratorConfig) (r : MediaReplacement) : Str :=
  match r.type with
  | MediaType.IMAGE => generateImageMarkdown cfg r
  | MediaType.VIDEO => generateVideoMarkdown r
  | MediaType.AUDIO => generateAudioMarkdown r
  | MediaType.SOCIAL_EMBED => generateSocialMarkdown r
  | MediaType.INTERACTIVE => generateInteractiveMarkdown r
  | _ => generateDefaultMarkdown r

/-- media.go generateReplacement: detector loop, then replacement assembly,
then markdown generation. -/
def generateReplacementStr (cfg : MediaConfig) (anc : List Str)
    (pinfo : Option PInfo) (n : TextNode) : Str :=
  let context := extractContext cfg anc pinfo n
  match runDetectors n with
  | some e =>
    let caption := findAssociatedCaption pinfo n
    generateMarkdownFor defaultGeneratorConfig
      (createReplacement cfg e context caption)
  | none =>
    generateMarkdownFor defaultGeneratorConfig
      (createFallbackReplacement n context)

mutual

/-- media.go processNode: a detected media node with a non-empty generated
replacement is mutated in place into a text leaf (children cleared,
attributes emptied, tag `#text`); otherwise its children are processed in
order, each seeing the already-processed previous siblings. -/
def processNode (cfg : MediaConfig) (anc : List Str) (pinfo : Option PInfo) :
    TextNode → TextNode
  | ⟨tg, tx, a, cs, d, i⟩ =>
    let n : TextNode := ⟨tg, tx, a, cs, d, i⟩
    if isMediaElement n && generateReplacementStr cfg anc pinfo n ≠ [] then
      ⟨str "#text", generateReplacementStr cfg anc pinfo n, [], [], d, i⟩
    else
      let childAnc :=
        match pinfo with
        | none => []
        | some p => directTextContentList (p.left ++ n :: p.right) :: anc
      ⟨tg, tx, a, processKids cfg childAnc tg [] cs, d, i⟩

/-- The children loop of media.go processNode (`left` accumulates the
already-processed siblings in document order). -/
def processKids (cfg : MediaConfig) (anc : List Str) (ptag : Str)
    (left : List TextNode) : List TextNode → List TextNode
  | [] => left
  | g :: rest =>
    let g' := processNode cfg anc (some ⟨ptag, left, rest⟩) g
    processKids cfg anc ptag (left ++ [g']) rest

end

/-- media.go ProcessMediaInTree on a non-nil root. -/
def ProcessMediaInTree (cfg : MediaConfig) (root : TextNode) : TextNode :=
  processNode cfg [] none root

/-!
## Tree builder (src/internal/tree/builder.go)

`html.Parse` (golang.org/x/net/html) is external; its output DOM is
modelled by `HtmlNode`: element nodes, text nodes, and `other` for the
node types the builder's switch ignores (comments, doctypes, the document
node itself).  `BuildTree` is given the list of children of the parsed
document node.
-/

inductive HtmlNode where
  | element (tag : Str) (attrs : List (Str × Str)) (children : List HtmlNode)
  | text (data : Str)
  | other
deriving Repr

/-- Builder options (`TreeBuilder` fields; `NewTreeBuilder` defaults are
`filterNavigation = false`, `preserveAttributes = false`,
`includeWhitespace = false`, `maxDepth = 100`). -/
structure BuilderOpts where
  filterNavigation : Bool
  preserveAttributes : Bool
  includeWhitespace : Bool
  maxDepth : Int

/-- Defaults of `NewTreeBuilder`. -/
def defaultBuilderOpts : BuilderOpts :=
  { filterNavigation := false, preserveAttributes := false
    includeWhitespace := false, maxDepth := 100 }

/-- Navigation tag set of `NewTreeBuilder`. -/
def navigationTag (t : Str) : Bool :=
  [str "nav", str "footer", str "header", str "aside", str "menu",
   str "script", str "style", str "noscript"].contains t

/-- Hidden-content attribute test of `traverseNode`: first attribute (in
order) whose key is `class` with a hidden marker, or whose key is `style`
with a display/visibility suppression. -/
def hiddenByAttrs (attrs : List (Str × Str)) : Bool :=
  attrs.any (fun kv =>
    (kv.1 == str "class" &&
      (containsSub kv.2 (str "hidden") || containsSub kv.2 (str "invisible") ||
       containsSub kv.2 (str "sr-only"))) ||
    (kv.1 == str "style" &&
      (containsSub kv.2 (str "display:none") ||
       containsSub kv.2 (str "display: none") ||
       containsSub kv.2 (str "visibility:hidden") ||
       containsSub kv.2 (str "visibility: hidden"))))

/-- Go map population loop `for _, attr := range node.Attr` of
`traverseNode` (later duplicate attribute keys overwrite earlier ones). -/
def buildAttrMap (attrs : List (Str × Str)) : List (Str × Str) :=
  attrs.foldl (fun m kv => putAttr m kv.1 kv.2) []

mutual

/-- builder.go traverseNode: returns the advanced pre-order index and the
children contributed to the parent (none when the node is skipped). -/
def traverseNode (opts : BuilderOpts) (h : HtmlNode) (depth index : Int) :
    Int × List TextNode :=
  if depth > opts.maxDepth then (index, [])
  else
    match h with
    | HtmlNode.element tag attrs children =>
      let lower := toLowerStr tag
      if lower = str "script" || lower = str "style" || lower = str "noscript" then
        (index, [])
      else if opts.filterNavigation && navigationTag lower then (index, [])
      else if opts.filterNavigation && hiddenByAttrs attrs then (index, [])
      else
        let nodeAttrs := if opts.preserveAttributes then buildAttrMap attrs else []
        let r := traverseNodes opts children (depth + 1) (index + 1)
        (r.1, [⟨tag, [], nodeAttrs, r.2, depth, index⟩])
    | HtmlNode.text data =>
      if trimSpace data = [] && !opts.includeWhitespace then (index, [])
      else (index + 1, [⟨str "#text", data, [], [], depth, index⟩])
    | HtmlNode.other => (index, [])

/-- The sibling loop threading the pre-order index. -/
def traverseNodes (opts : BuilderOpts) (hs : List HtmlNode) (depth index : Int) :
    Int × List TextNode :=
  match hs with
  | [] => (index, [])
  | h :: rest =>
    let r := traverseNode opts h depth index
    let r2 := traverseNodes opts rest depth r.1
    (r2.1, r.2 ++ r2.2)

end

/-- builder.go BuildTree on the children of the parsed document node. -/
def BuildTree (opts : BuilderOpts) (docChildren : List HtmlNode) : TextNode :=
  ⟨str "document", [], [], (traverseNodes opts docChildren 1 1).2, 0, 0⟩

mutual

/-- The `#text` leaf invariant: every node tagged `#text` has no children
and an empty attribute map. -/
def textLeafInv : TextNode → Bool
  | ⟨tg, _, a, cs, _, _⟩ =>
    (if tg = str "#text" then a.isEmpty && cs.isEmpty else true) &&
    textLeafInvList cs

def textLeafInvList : List TextNode → Bool
  | [] => true
  | c :: cs => textLeafInv c && textLeafInvList cs

end

mutual

/-- No element of the parsed DOM uses the reserved sentinel `#text` as an
element tag (an invariant of `html.Parse`: `#` cannot begin a tag name). -/
def htmlWf : HtmlNode → Bool
  | HtmlNode.element tag _ children =>
    tag ≠ str "#text" && htmlWfList children
  | HtmlNode.text _ => true
  | HtmlNode.other => true

def htmlWfList : List HtmlNode → Bool
  | [] => true
  | h :: hs => htmlWf h && htmlWfList hs

end

/-!
## Markdown renderer (src/internal/markdown, block renderers and the
StyleManager of the markdown package)

Block renderers are tried in registration order (Heading, Paragraph, List,
Blockquote, CodeBlock); their `Priority` fields are never consulted by the
dispatch.  `RenderState.HeadingCount` and `ListStack` are written nowhere,
and `WithinCode` is never set to true; `CurrentDepth` is the only mutable
state and is threaded explicitly.
-/

inductive HeadingStyle where
  | atx | setext
deriving Repr, DecidableEq

inductive CodeBlockStyle where
  | fenced | indented
deriving Repr, DecidableEq

structure ListStyle where
  unorderedMarker : Str
  orderedFormat : Str
  indentSize : Nat

structure EmphasisStyle where
  emphasis : Str
  strong : Str

structure RenderConfig where
  headingStyle : HeadingStyle
  listStyle : ListStyle
  emphasisStyle : EmphasisStyle
  codeBlockStyle : CodeBlockStyle
  lineWidth : Nat
  preserveLineBreaks : Bool

/-- Defaults of `NewTreeRenderer`. -/
def defaultRenderConfig : RenderConfig :=
  { headingStyle := HeadingStyle.atx
    listStyle := { unorderedMarker := str "-", orderedFormat := str "1.",
                   indentSize := 2 }
    emphasisStyle := { emphasis := str "*", strong := str "**" }
    codeBlockStyle := CodeBlockStyle.fenced
    lineWidth := 80
    preserveLineBreaks := false }

structure RenderState where
  currentDepth : Nat
  withinCode : Bool

/-- StyleManager.FormatStrong. -/
def formatStrong (cfg : RenderConfig) (text : Str) : Str :=
  if text = [] then []
  else cfg.emphasisStyle.strong ++ text ++ cfg.emphasisStyle.strong

/-- StyleManager.FormatEmphasis. -/
def formatEmphasis (cfg : RenderConfig) (text : Str) : Str :=
  if text = [] then []
  else cfg.emphasisStyle.emphasis ++ text ++ cfg.emphasisStyle.emphasis

/-- StyleManager.FormatInlineCode. -/
def formatInlineCode (text : Str) : Str :=
  if text = [] then [] else str "`" ++ text ++ str "`"

/-- TreeRenderer.renderTextContent. -/
def renderTextContent (st : RenderState) (text : Str) : Str :=
  if st.withinCode then text else trimSpace text

/-- Recursive trimmed-text extraction, duplicated verbatim in the source as
HeadingRenderer.extractTextContent, ParagraphRenderer.extractTextContent
and BlockquoteRenderer.extractTextContent; its body coincides with
`getNodeTextR`. -/
def extractTextContentR (n : TextNode) : Str := getNodeTextR n

/-- HeadingRenderer.getHeadingLevel. -/
def getHeadingLevel (tag : Str) : Nat :=
  match toLowerStr tag with
  | ['h', c] => if '1' ≤ c && c ≤ '6' then c.toNat - '0'.toNat else 1
  | _ => 1

/-- HeadingRenderer.CanRender. -/
def headingCanRender (n : TextNode) : Bool :=
  let t := toLowerStr n.tag
  t == str "h1" || t == str "h2" || t == str "h3" || t == str "h4" ||
  t == str "h5" || t == str "h6"

/-- HeadingRenderer.Render: always the ATX form, regardless of the
configured heading style (the Setext-capable StyleManager.FormatHeading is
never called by any renderer). -/
def headingRender (n : TextNode) : Str :=
  let level := getHeadingLevel n.tag
  let content := extractTextContentR n
  if content = [] then []
  else str "\n" ++ repeatC '#' level ++ str " " ++ content ++ str "\n\n"

/-- Inline element rendering, duplicated in the source as
ParagraphRenderer.renderInlineElement and the inline switch of
BlockquoteRenderer.renderParagraphContent. -/
def inlineElementRender (cfg : RenderConfig) (child : TextNode) : Str :=
  let t := toLowerStr child.tag
  let content := extractTextContentR child
  if t = str "strong" || t = str "b" then formatStrong cfg content
  else if t = str "em" || t = str "i" then formatEmphasis cfg content
  else if t = str "code" then formatInlineCode content
  else if t = str "a" then
    let href := getAttr child.attrs (str "href")
    if href = [] then content
    else str "[" ++ content ++ str "](" ++ href ++ str ")"
  else content

/-- ParagraphRenderer.renderParagraphContent /
BlockquoteRenderer.renderParagraphContent. -/
def paragraphContent (cfg : RenderConfig) (st : RenderState) (n : TextNode) :
    Str :=
  trimSpace (n.children.foldl (fun acc child =>
    acc ++ (if child.tag = str "#text" then renderTextContent st child.text
            else inlineElementRender cfg child)) [])

/-- ParagraphRenderer.CanRender. -/
def paragraphCanRender (n : TextNode) : Bool := toLowerStr n.tag == str "p"

/-- ParagraphRenderer.Render. -/
def paragraphRender (cfg : RenderConfig) (st : RenderState) (n : TextNode) :
    Str :=
  let content := paragraphContent cfg st n
  if content = [] then [] else content ++ str "\n\n"

/-- ListRenderer.CanRender. -/
def listCanRender (n : TextNode) : Bool :=
  toLowerStr n.tag == str "ul" || toLowerStr n.tag == str "ol"

/-- BlockquoteRenderer.CanRender. -/
def blockquoteCanRender (n : TextNode) : Bool :=
  toLowerStr n.tag == str "blockquote"

/-- CodeBlockRenderer.CanRender. -/
def codeBlockCanRender (n : TextNode) : Bool := toLowerStr n.tag == str "pre"

mutual

/-- CodeBlockRenderer.extractCodeContent: raw concatenated text. -/
def extractCodeContent : TextNode → Str
  | ⟨tg, tx, _, cs, _, _⟩ =>
    if tg = str "#text" then tx else extractCodeContentList cs

def extractCodeContentList : List TextNode → Str
  | [] => []
  | c :: cs => extractCodeContent c ++ extractCodeContentList cs

end

/-- CodeBlockRenderer.Render. -/
def codeBlockRender (n : TextNode) : Str :=
  let codeChild := n.children.find? (fun c => toLowerStr c.tag == str "code")
  let language :=
    match codeChild with
    | some c =>
      match lookupAttr c.attrs (str "class") with
      | some cl => if startsWith cl (str "language-") then trimPre cl (str "language-") else []
      | none => []
    | none => []
  let content :=
    match codeChild with
    | some c => extractCodeContent c
    | none => extractCodeContent n
  if content = [] then []
  else if language ≠ [] then
    str "\n```" ++ language ++ str "\n" ++ content ++ str "\n```\n\n"
  else
    str "\n```\n" ++ content ++ str "\n```\n\n"

/-- Blockquote formatting applied to the extracted content
(BlockquoteRenderer.Render after extractBlockquoteContent). -/
def blockquoteFormat (content : Str) : Str :=
  if content = [] then []
  else
    joinSep (str "\n")
      ((splitOnChar '\n' content).filterMap (fun line =>
        let line := trimSpace line
        if line ≠ [] then some (str "> " ++ line) else none)) ++ str "\n\n"

mutual

/-- TreeRenderer.renderNode: text nodes, then the block renderers in
registration order, then the generic concatenate-children fall-through.
The bodies of ListRenderer.Render and BlockquoteRenderer.Render are
inlined here (see `listRender` and `blockquoteRender` below for the
stand-alone forms). -/
def renderNode (cfg : RenderConfig) (st : RenderState) : TextNode → Str
  | ⟨tg, tx, a, cs, d, i⟩ =>
    let n : TextNode := ⟨tg, tx, a, cs, d, i⟩
    if tg = str "#text" then renderTextContent st tx
    else if headingCanRender n then headingRender n
    else if paragraphCanRender n then paragraphRender cfg st n
    else if listCanRender n then
      listItemsLoop cfg st (toLowerStr tg = str "ol") 1 cs ++ str "\n"
    else if blockquoteCanRender n then
      blockquoteFormat (trimSpace (bqContentLoop cfg st cs))
    else if codeBlockCanRender n then codeBlockRender n
    else renderChildrenConcat cfg st cs

/-- Generic fall-through of renderNode: concatenate rendered children. -/
def renderChildrenConcat (cfg : RenderConfig) (st : RenderState) :
    List TextNode → Str
  | [] => []
  | c :: cs => renderNode cfg st c ++ renderChildrenConcat cfg st cs

/-- The `li` loop of ListRenderer.Render (the counter advances only when an
item contributed output). -/
def listItemsLoop (cfg : RenderConfig) (st : RenderState) (isOrdered : Bool)
    (counter : Nat) : List TextNode → Str
  | [] => []
  | c :: cs =>
    if toLowerStr c.tag = str "li" then
      let item := renderListItem cfg st isOrdered counter c
      if item = [] then listItemsLoop cfg st isOrdered counter cs
      else item ++ listItemsLoop cfg st isOrdered (counter + 1) cs
    else listItemsLoop cfg st isOrdered counter cs

/-- ListRenderer.renderListItem. -/
def renderListItem (cfg : RenderConfig) (st : RenderState) (isOrdered : Bool)
    (counter : Nat) : TextNode → Str
  | ⟨_, _, _, cs, _, _⟩ =>
    let indent := repeatC ' ' (st.currentDepth * cfg.listStyle.indentSize)
    let marker :=
      if isOrdered then natToStr counter ++ str ". "
      else cfg.listStyle.unorderedMarker ++ str " "
    let content :=
      trimSpace (itemContentLoop cfg
        { st with currentDepth := st.currentDepth + 1 } cs)
    if content = [] then []
    else indent ++ marker ++ content ++ str "\n"

/-- ListRenderer.renderItemContent's child loop (run at the incremented
depth); a nested list child goes through ListRenderer.Render, inlined as
in `renderNode`. -/
def itemContentLoop (cfg : RenderConfig) (st : RenderState) :
    List TextNode → Str
  | [] => []
  | c :: cs =>
    let piece :=
      if c.tag = str "#text" then trimSpace c.text
      else if toLowerStr c.tag = str "ul" || toLowerStr c.tag = str "ol" then
        let nested :=
          (match c with
           | ⟨ctg, _, _, ccs, _, _⟩ =>
             listItemsLoop cfg st (toLowerStr ctg = str "ol") 1 ccs ++ str "\n")
        if nested = [] then [] else str "\n" ++ nested
      else renderNode cfg st c
    piece ++ itemContentLoop cfg st cs

/-- BlockquoteRenderer.extractBlockquoteContent's child loop. -/
def bqContentLoop (cfg : RenderConfig) (st : RenderState) :
    List TextNode → Str
  | [] => []
  | c :: cs =>
    let piece :=
      if c.tag = str "#text" then
        let t := trimSpace c.text
        if t ≠ [] then t ++ str " " else []
      else if toLowerStr c.tag = str "p" then
        paragraphContent cfg st c ++ str " "
      else renderNode cfg st c
    piece ++ bqContentLoop cfg st cs

end

/-- ListRenderer.Render as a stand-alone function (equal to the form
inlined in `renderNode` and `itemContentLoop`). -/
def listRender (cfg : RenderConfig) (st : RenderState) (n : TextNode) : Str :=
  listItemsLoop cfg st (toLowerStr n.tag = str "ol") 1 n.children ++ str "\n"

/-- BlockquoteRenderer.Render as a stand-alone function (equal to the form
inlined in `renderNode`). -/
def blockquoteRender (cfg : RenderConfig) (st : RenderState) (n : TextNode) :
    Str :=
  blockquoteFormat (trimSpace (bqContentLoop cfg st n.children))

/-- TreeRenderer.postProcess blank-line collapse loop. -/
def collapseBlank (prevEmpty : Bool) : List Str → List Str
  | [] => []
  | line :: rest =>
    if trimSpace line = [] then
      if prevEmpty then collapseBlank true rest
      else [] :: collapseBlank true rest
    else line :: collapseBlank false rest

/-- TreeRenderer.postProcess. -/
def postProcess (markdown : Str) : Str :=
  let lines := splitOnChar '\n' markdown
  let result := collapseBlank false lines
  trimSpace (joinSep (str "\n") result) ++ str "\n"

/-- Initial render state of RenderTree. -/
def initRenderState : RenderState :=
  { currentDepth := 0, withinCode := false }

/-- TreeRenderer.RenderTree (`root` is a Go pointer; a nil root returns the
empty string with a nil error, skipping the post-processing). -/
def RenderTree (cfg : RenderConfig) (root : Option TextNode) :
    Except Str Str :=
  match root with
  | none => Except.ok []
  | some r => Except.ok (postProcess (renderNode cfg initRenderState r))

/-!
## Predicates and concrete inputs used by the claims
-/

/-- Blank line: whitespace-only. -/
def isBlankLine (l : Str) : Bool := (trimSpace l).isEmpty

/-- No two adjacent blank lines. -/
def noTwoBlankRun : List Str → Bool
  | a :: b :: rest => !(isBlankLine a && isBlankLine b) && noTwoBlankRun (b :: rest)
  | _ => true

/-- No run of three (or more) consecutive blank lines. -/
def noThreeBlankRun : List Str → Bool
  | a :: b :: c :: rest =>
    !(isBlankLine a && isBlankLine b && isBlankLine c) &&
    noThreeBlankRun (b :: c :: rest)
  | _ => true

/-- Modelled from the spec, for comparison with the implementation: the
Length rule's exclusion condition as the specification states it, with its
stated default threshold `minContentLength = 20` — "aggregated text length
of the subtree is below `minContentLength`, unless the node is itself a
structural/heading tag, or contains a heading/image/table/list/blockquote/
code descendant, or carries an important/highlight/note/warning/alert
class". -/
def specLengthRuleExcludes (minContentLength : Nat) (n : TextNode) : Bool :=
  decide ((trimSpace (lengthExtractAllText n)).length < minContentLength) &&
  !lengthIsStructural n && !hasImportantChildren n

/-- Example for C2 and C1: the spec's navigation node
`<nav class="main-nav"><a href="/">Home</a></nav>`. -/
def navExample : TextNode :=
  ⟨str "nav", [], [(str "class", str "main-nav")],
   [⟨str "a", [], [(str "href", str "/")],
     [⟨str "#text", str "Home", [], [], 3, 3⟩], 2, 2⟩], 1, 1⟩

/-- Example for C3: a document whose `span` child survives the first pass
(33 characters of subtree text) but loses its `nav` child there, after
which the remaining 2 characters fall below the Length rule's threshold on
a second pass. -/
def c3Tree : TextNode :=
  ⟨str "document", [], [],
   [⟨str "span", [], [],
     [⟨str "nav", [], [],
       [⟨str "#text", str "hello world this is navigation", [], [], 3, 3⟩],
       2, 2⟩,
      ⟨str "#text", str "hi", [], [], 2, 4⟩], 1, 1⟩], 0, 0⟩

/-- Example for C6: a `span` whose subtree text has 15 characters — below
the spec's stated default of 20, above the implementation's threshold
of 10. -/
def c6Node : TextNode :=
  ⟨str "span", [], [],
   [⟨str "#text", str "fifteen chars!!", [], [], 1, 1⟩], 0, 0⟩

/-- Example for C6's witness: a `span` with 2 characters of text. -/
def c6Short : TextNode :=
  ⟨str "span", [], [], [⟨str "#text", str "hi", [], [], 1, 1⟩], 0, 0⟩

/-- Example for C4: the spec's image
`<img src="cat.jpg" alt="A fluffy orange cat sitting in a sunny window">`
inside a paragraph. -/
def imgExample : TextNode :=
  ⟨str "img", [],
   [(str "src", str "cat.jpg"),
    (str "alt", str "A fluffy orange cat sitting in a sunny window")],
   [], 2, 2⟩

/-- Example for C7: `<h1>Title</h1>`. -/
def h1Example : TextNode :=
  ⟨str "h1", [], [], [⟨str "#text", str "Title", [], [], 1, 1⟩], 0, 0⟩

/-- Example for C7's witness: `<h2>Sub</h2>`. -/
def h2Example : TextNode :=
  ⟨str "h2", [], [], [⟨str "#text", str "Sub", [], [], 1, 1⟩], 0, 0⟩

/-- `NewTreeRenderer` configuration switched to Setext headings. -/
def setextRenderConfig : RenderConfig :=
  { defaultRenderConfig with headingStyle := HeadingStyle.setext }

/-!
## Theorems
-/

/-- Structural induction principle for the nested tree type. -/
theorem TextNode.indOnText (P : TextNode → Prop)
    (h : ∀ tg tx a cs d i, (∀ c ∈ cs, P c) → P ⟨tg, tx, a, cs, d, i⟩) :
    ∀ t, P t := by
  intro t
  match t with
  | ⟨tg, tx, a, cs, d, i⟩ =>
    apply h
    intro c hc
    have : sizeOf c < sizeOf (TextNode.mk tg tx a cs d i) := by
      have := List.sizeOf_lt_of_mem hc
      simp only [TextNode.mk.sizeOf_spec]
      omega
    exact TextNode.indOnText P h c
termination_by t => sizeOf t

/-- Structural induction principle for the parsed-DOM type. -/
theorem HtmlNode.indOnHtml (P : HtmlNode → Prop)
    (he : ∀ tag attrs children, (∀ c ∈ children, P c) →
      P (HtmlNode.element tag attrs children))
    (ht : ∀ data, P (HtmlNode.text data))
    (ho : P HtmlNode.other) :
    ∀ h, P h := by
  intro h
  match h with
  | HtmlNode.element tag attrs children =>
    apply he
    intro c hc
    have : sizeOf c < sizeOf (HtmlNode.element tag attrs children) := by
      have := List.sizeOf_lt_of_mem hc
      simp only [HtmlNode.element.sizeOf_spec]
      omega
    exact HtmlNode.indOnHtml P he ht ho c
  | HtmlNode.text data => exact ht data
  | HtmlNode.other => exact ho
termination_by h => sizeOf h

/-- C1: for every non-nil input tree, `FilterTree` returns a non-null root
(`Except.ok (some _)`); when the root itself is excluded (`filterNode`
returns `none`), the returned root is the empty placeholder node with tag
`document`. -/
theorem c1_filterTree_never_null (cfg : FilterConfig) (root : TextNode) :
    FilterTree cfg (some root) = Except.ok (some (filterTreeResult cfg root)) ∧
    (filterNode cfg root = none →
      filterTreeResult cfg root = emptyDocumentRoot ∧
      (filterTreeResult cfg root).tag = str "document" ∧
      (filterTreeResult cfg root).children = [] ∧
      (filterTreeResult cfg root).text = []) := by
  refine ⟨rfl, fun h => ?_⟩
  simp [filterTreeResult, h, emptyDocumentRoot]

/-- Witness for C1 at a concrete all-excluded root. -/
theorem c1_filterTree_never_null_witness :
    filterNode defaultFilterConfig navExample = none ∧
    filterTreeResult defaultFilterConfig navExample = emptyDocumentRoot :=
  ⟨rfl, ((c1_filterTree_never_null defaultFilterConfig navExample).2 rfl).1⟩

/-- C2: every node whose tag is `nav` is removed (with its whole subtree)
by `filterNode`, for every whitelist configuration: the priority-100
semantic rule fires before the whitelist is consulted. -/
theorem c2_nav_removed_despite_whitelist (cfg : FilterConfig) (n : TextNode)
    (h : toLowerStr n.tag = str "nav") : filterNode cfg n = none := by
  match n with
  | ⟨tg, tx, a, cs, d, i⟩ =>
    simp only [TextNode.tag] at h
    have hsem : semanticTagShouldExclude ⟨tg, tx, a, cs, d, i⟩ = true := by
      simp [semanticTagShouldExclude, h]
    simp [filterNode, highPriorityExclude, hsem]

/-- Witness for C2: the spec's `<nav class="main-nav"><a href="/">Home</a></nav>`
is removed even though its class is in no exclusion list and whitelists do
not protect it. -/
theorem c2_nav_removed_despite_whitelist_witness :
    toLowerStr navExample.tag = str "nav" ∧
    filterNode defaultFilterConfig navExample = none ∧
    filterNode { defaultFilterConfig with
      preserveWhitelist := [str "nav", str ".main-nav"] } navExample = none :=
  ⟨rfl, c2_nav_removed_despite_whitelist defaultFilterConfig navExample rfl,
   c2_nav_removed_despite_whitelist _ navExample rfl⟩

/-- C3 counterexample: filtering is not idempotent.  On `c3Tree` the first
pass removes the `nav` child of the `span` (semantic rule); the remaining
subtree text `hi` then falls below the Length rule's threshold, so a second
pass removes everything and returns the placeholder root. -/
theorem c3_idempotence_cex :
    filterTreeResult defaultFilterConfig
        (filterTreeResult defaultFilterConfig c3Tree) ≠
      filterTreeResult defaultFilterConfig c3Tree := by
  intro h
  exact absurd (congrArg (fun t => t.children.length) h) (by decide)

/-- C3 amended: content filtering is not idempotent; a second application
of `FilterTree` can remove further nodes, because removals made by the
first pass can drop a subtree's aggregated text below the Length rule's
threshold. -/
theorem c3_idempotence_amended :
    ∃ t : TextNode,
      filterTreeResult defaultFilterConfig
          (filterTreeResult defaultFilterConfig t) ≠
        filterTreeResult defaultFilterConfig t := by
  refine ⟨c3Tree, fun h => ?_⟩
  exact absurd (congrArg (fun t => t.children.length) h) (by decide)

/-- C10: rendering a nil root yields the empty string with a nil error;
post-processing is skipped entirely — its output, by contrast, always ends
with a newline and in particular is never empty. -/
theorem c10_nil_root_renders_empty (cfg : RenderConfig) :
    RenderTree cfg none = Except.ok [] ∧ ∀ s : Str, postProcess s ≠ [] := by
  refine ⟨rfl, fun s h => ?_⟩
  simp only [postProcess] at h
  obtain ⟨-, h2⟩ := List.append_eq_nil.mp h
  exact absurd h2 (by decide)

/-- Witness for C10 at concrete inputs. -/
theorem c10_nil_root_renders_empty_witness :
    RenderTree defaultRenderConfig none = Except.ok [] ∧
    postProcess [] ≠ [] :=
  ⟨(c10_nil_root_renders_empty defaultRenderConfig).1,
   (c10_nil_root_renders_empty defaultRenderConfig).2 []⟩

/-- Characterization of the installed Length rule: it fires exactly on
non-`#text`, non-structural nodes whose aggregated trimmed subtree text is
shorter than the installed threshold, with no important descendant. -/
theorem lengthShouldExclude_iff (m : Nat) (n : TextNode) :
    lengthShouldExclude m n = true ↔
      (n.tag ≠ str "#text" ∧ lengthIsStructural n = false ∧
       (trimSpace (lengthExtractAllText n)).length < m ∧
       hasImportantChildren n = false) := by
  by_cases ht : n.tag = str "#text"
  · simp [lengthShouldExclude, ht]
  · by_cases hs : lengthIsStructural n = true
    · simp [lengthShouldExclude, ht, hs]
    · by_cases hlt : (trimSpace (lengthExtractAllText n)).length < m
      · simp [lengthShouldExclude, ht, hs, hlt, Bool.not_eq_true']
      · simp [lengthShouldExclude, ht, hs, hlt]

/-- C6 counterexample: a 15-character `span` is below the spec's stated
default `minContentLength` of 20 with no veto, yet the installed Length
rule (threshold 10) does not exclude it and `filterNode` keeps it. -/
theorem c6_length_threshold_cex :
    specLengthRuleExcludes defaultFilterConfig.minContentLength c6Node = true ∧
    lengthShouldExclude 10 c6Node = false ∧
    (filterNode defaultFilterConfig c6Node).isSome = true :=
  ⟨by decide, by decide, by decide⟩

/-- C6 amended: under the default filter, for a node not caught by the
priority-100/80 rules, not whitelisted and not caught by the link-density
rule, `filterNode` removes it exactly when the aggregated trimmed text
length of its subtree is below 10 — the threshold `NewContentFilter` hands
to `NewLengthFilter`, not the `MinContentLength` config field (20) — unless
the node is itself a structural/heading tag or has an important descendant
(heading/image/table/list/blockquote/code tag or important/highlight/note/
warning/alert class). -/
theorem c6_length_rule_amended (cfg : FilterConfig) (n : TextNode)
    (h1 : highPriorityExclude n = false)
    (h2 : isWhitelisted cfg n = false)
    (h3 : linkDensityShouldExclude n = false) :
    filterNode cfg n = none ↔
      (n.tag ≠ str "#text" ∧ lengthIsStructural n = false ∧
       (trimSpace (lengthExtractAllText n)).length < 10 ∧
       hasImportantChildren n = false) := by
  match n with
  | ⟨tg, tx, a, cs, d, i⟩ =>
    rw [← lengthShouldExclude_iff 10 ⟨tg, tx, a, cs, d, i⟩]
    have hrw : filterNode cfg ⟨tg, tx, a, cs, d, i⟩ =
        if lengthShouldExclude 10 ⟨tg, tx, a, cs, d, i⟩ then none
        else some ⟨tg, tx, a, filterNodes cfg cs, d, i⟩ := by
      simp [filterNode, h1, h2, lowPriorityExclude, h3]
    rw [hrw]
    by_cases h : lengthShouldExclude 10 ⟨tg, tx, a, cs, d, i⟩ = true
    · simp [h]
    · simp [h]

/-- Witness for C6's amended theorem: a 2-character `span` is removed. -/
theorem c6_length_rule_amended_witness :
    highPriorityExclude c6Short = false ∧
    isWhitelisted defaultFilterConfig c6Short = false ∧
    linkDensityShouldExclude c6Short = false ∧
    filterNode defaultFilterConfig c6Short = none :=
  ⟨by decide, by decide, by decide,
   (c6_length_rule_amended defaultFilterConfig c6Short (by decide) (by decide)
     (by decide)).mpr ⟨by decide, by decide, by decide, by decide⟩⟩

/-- C7 counterexample: with the configuration switched to Setext headings,
`<h1>Title</h1>` still renders in ATX form (no underline characters at
all): HeadingRenderer.Render never consults the configured heading style. -/
theorem c7_setext_ignored_cex :
    renderNode setextRenderConfig initRenderState h1Example = str "\n# Title\n\n" ∧
    containsSub (renderNode setextRenderConfig initRenderState h1Example)
      (str "=") = false :=
  ⟨by decide, by decide⟩

/-- C7 amended: for every heading node and every render configuration
(Setext included), the renderer emits the ATX form
`"\n" ++ "#"×level ++ " " ++ text ++ "\n\n"` (blank line after), or nothing
when the extracted text is empty; the Setext configuration has no effect. -/
theorem c7_heading_atx_amended (cfg : RenderConfig) (st : RenderState)
    (n : TextNode) (h : headingCanRender n = true) :
    renderNode cfg st n =
      (if extractTextContentR n = [] then []
       else str "\n" ++ repeatC '#' (getHeadingLevel n.tag) ++ str " " ++
         extractTextContentR n ++ str "\n\n") := by
  match n with
  | ⟨tg, tx, a, cs, d, i⟩ =>
    have htg : ¬(tg = str "#text") := by
      intro he
      subst he
      have hfalse : headingCanRender ⟨str "#text", tx, a, cs, d, i⟩ = false := rfl
      rw [hfalse] at h
      exact Bool.false_ne_true h
    simp only [renderNode]
    rw [if_neg htg, if_pos h]
    rfl

/-- Witness for C7's amended theorem: `<h2>Sub</h2>` under the default
(ATX) configuration. -/
theorem c7_heading_atx_amended_witness :
    headingCanRender h2Example = true ∧
    renderNode defaultRenderConfig initRenderState h2Example = str "\n## Sub\n\n" := by
  refine ⟨by decide, ?_⟩
  rw [c7_heading_atx_amended defaultRenderConfig initRenderState h2Example
    (by decide)]
  decide

/-- The list form of the leaf invariant distributes over append. -/
theorem textLeafInvList_append (xs ys : List TextNode) :
    textLeafInvList (xs ++ ys) = (textLeafInvList xs && textLeafInvList ys) := by
  induction xs with
  | nil => simp [textLeafInvList]
  | cons c cs ih => simp [textLeafInvList, ih, Bool.and_assoc]

/-- Members of a well-formed DOM list are well-formed. -/
theorem htmlWfList_mem : ∀ hs, htmlWfList hs = true → ∀ x ∈ hs, htmlWf x = true := by
  intro hs h x hx
  induction hs with
  | nil => cases hx
  | cons c cs ih =>
    simp only [htmlWfList, Bool.and_eq_true] at h
    rcases List.mem_cons.mp hx with rfl | hx2
    · exact h.1
    · exact ih h.2 hx2

/-- Builder leaf invariant, node level: every `TextNode` contributed by
`traverseNode` for a well-formed DOM node satisfies the `#text` leaf
invariant. -/
theorem traverseNode_textLeafInv :
    ∀ (h : HtmlNode) (opts : BuilderOpts) (depth index : Int),
      htmlWf h = true →
      textLeafInvList (traverseNode opts h depth index).2 = true := by
  intro h
  induction h using HtmlNode.indOnHtml with
  | he tag attrs children ih =>
    intro opts depth index hwf
    simp only [htmlWf, Bool.and_eq_true] at hwf
    obtain ⟨htag, hkids⟩ := hwf
    have htag' : tag ≠ str "#text" := of_decide_eq_true htag
    have hkids' : ∀ x ∈ children, htmlWf x = true := htmlWfList_mem children hkids
    have hlist : ∀ (hs : List HtmlNode) (d i : Int),
        (∀ x ∈ hs, ∀ (d2 i2 : Int), htmlWf x = true →
          textLeafInvList (traverseNode opts x d2 i2).2 = true) →
        (∀ x ∈ hs, htmlWf x = true) →
        textLeafInvList (traverseNodes opts hs d i).2 = true := by
      intro hs
      induction hs with
      | nil =>
        intro d i _ _
        show textLeafInvList (i, ([] : List TextNode)).2 = true
        rfl
      | cons x xs ihx =>
        intro d i hP hmem
        simp only [traverseNodes]
        rw [textLeafInvList_append]
        have h1 := hP x (List.mem_cons_self x xs) d i
          (hmem x (List.mem_cons_self x xs))
        have h2 := ihx d (traverseNode opts x d i).1
          (fun y hy => hP y (List.mem_cons_of_mem x hy))
          (fun y hy => hmem y (List.mem_cons_of_mem x hy))
        simp [h1, h2]
    by_cases hd : depth > opts.maxDepth
    · simp [traverseNode, hd, textLeafInvList]
    · by_cases hg1 : toLowerStr tag = str "script" ∨ toLowerStr tag = str "style" ∨
          toLowerStr tag = str "noscript"
      · rcases hg1 with h1 | h1 | h1 <;> simp [traverseNode, hd, h1, textLeafInvList]
      · push_neg at hg1
        by_cases hb2 : (opts.filterNavigation && navigationTag (toLowerStr tag)) = true
        · simp [traverseNode, hd, hg1.1, hg1.2.1, hg1.2.2, hb2, textLeafInvList]
        · by_cases hb3 : (opts.filterNavigation && hiddenByAttrs attrs) = true
          · simp [traverseNode, hd, hg1.1, hg1.2.1, hg1.2.2, hb2, hb3,
              textLeafInvList]
          · have hrec := hlist children (depth + 1) (index + 1)
              (fun x hx d2 i2 hwfx => ih x hx opts d2 i2 hwfx) hkids'
            simp [traverseNode, hd, hg1.1, hg1.2.1, hg1.2.2, hb2, hb3,
              textLeafInvList, textLeafInv, htag', hrec]
  | ht data =>
    intro opts depth index _
    by_cases hd : depth > opts.maxDepth
    · simp [traverseNode, hd, textLeafInvList]
    · by_cases hskip : trimSpace data = [] ∧ opts.includeWhitespace = false
      · simp [traverseNode, hd, hskip, textLeafInvList]
      · simp [traverseNode, hd, hskip, textLeafInvList, textLeafInv,
          List.isEmpty]
  | ho =>
    intro opts depth index _
    simp [traverseNode, textLeafInvList]

/-- Builder leaf invariant, sibling-list level. -/
theorem traverseNodes_textLeafInv (hs : List HtmlNode) (opts : BuilderOpts)
    (depth index : Int) (hwf : htmlWfList hs = true) :
    textLeafInvList (traverseNodes opts hs depth index).2 = true := by
  induction hs generalizing index with
  | nil => simp [traverseNodes, textLeafInvList]
  | cons x xs ih =>
    simp only [htmlWfList, Bool.and_eq_true] at hwf
    simp only [traverseNodes]
    rw [textLeafInvList_append]
    simp [traverseNode_textLeafInv x opts depth index hwf.1,
      ih ((traverseNode opts x depth index).1) hwf.2]

/-- Filter leaf-invariant preservation, children-list level, assuming it
for each member. -/
theorem filterNodes_textLeafInv (cfg : FilterConfig) (cs : List TextNode)
    (hmem : ∀ c ∈ cs, ∀ f, textLeafInv c = true →
      filterNode cfg c = some f → textLeafInv f = true)
    (hinv : textLeafInvList cs = true) :
    textLeafInvList (filterNodes cfg cs) = true := by
  induction cs with
  | nil => simp [filterNodes, textLeafInvList]
  | cons c rest ih =>
    simp only [textLeafInvList, Bool.and_eq_true] at hinv
    simp only [filterNodes]
    cases hf : filterNode cfg c with
    | none => exact ih (fun y hy => hmem y (by simp [hy])) hinv.2
    | some f =>
      simp only [textLeafInvList, Bool.and_eq_true]
      exact ⟨hmem c (by simp) f hinv.1 hf,
        ih (fun y hy => hmem y (by simp [hy])) hinv.2⟩

/-- Filter leaf-invariant preservation, node level. -/
theorem filterNode_textLeafInv :
    ∀ (t : TextNode) (cfg : FilterConfig) (f : TextNode),
      textLeafInv t = true → filterNode cfg t = some f →
      textLeafInv f = true := by
  intro t
  induction t using TextNode.indOnText with
  | h tg tx a cs d i ih =>
    intro cfg f hinv hf
    simp only [filterNode] at hf
    by_cases h1 : highPriorityExclude ⟨tg, tx, a, cs, d, i⟩ = true
    · simp [h1] at hf
    · simp only [Bool.not_eq_true] at h1
      simp only [h1, Bool.false_eq_true, if_false, ite_false] at hf
      by_cases h2 : (!isWhitelisted cfg ⟨tg, tx, a, cs, d, i⟩ &&
          lowPriorityExclude ⟨tg, tx, a, cs, d, i⟩) = true
      · simp [h2] at hf
      · simp only [Bool.not_eq_true] at h2
        simp only [h2, Bool.false_eq_true, if_false, ite_false,
          Option.some.injEq] at hf
        subst hf
        simp only [textLeafInv, Bool.and_eq_true] at hinv ⊢
        constructor
        · by_cases ht : tg = str "#text"
          · simp only [ht, if_true, ite_true, Bool.and_eq_true] at hinv ⊢
            obtain ⟨⟨ha, hcs⟩, -⟩ := hinv
            have hcs' : cs = [] := by
              cases cs with
              | nil => rfl
              | cons x xs => simp [List.isEmpty] at hcs
            have ha' : a = [] := by
              cases a with
              | nil => rfl
              | cons x xs => simp [List.isEmpty] at ha
            subst hcs'
            subst ha'
            simp [filterNodes, List.isEmpty]
          · simp [ht]
        · exact filterNodes_textLeafInv cfg cs
            (fun c hc f' hc1 hc2 => ih c hc cfg f' hc1 hc2) hinv.2

/-- Media leaf-invariant preservation for the children loop, assuming it
for each member of the unprocessed suffix. -/
theorem processKids_textLeafInv (cfg : MediaConfig) :
    ∀ (rest left : List TextNode) (anc : List Str) (ptag : Str),
      (∀ g ∈ rest, ∀ anc2 pinfo2, textLeafInv g = true →
        textLeafInv (processNode cfg anc2 pinfo2 g) = true) →
      textLeafInvList rest = true → textLeafInvList left = true →
      textLeafInvList (processKids cfg anc ptag left rest) = true := by
  intro rest
  induction rest with
  | nil => intro left anc ptag _ _ hleft; simpa [processKids] using hleft
  | cons g rest ih =>
    intro left anc ptag hmem hinv hleft
    simp only [textLeafInvList, Bool.and_eq_true] at hinv
    simp only [processKids]
    refine ih (left ++ [processNode cfg anc (some ⟨ptag, left, rest⟩) g]) anc
      ptag (fun y hy => hmem y (by simp [hy])) hinv.2 ?_
    rw [textLeafInvList_append]
    simp [hleft, textLeafInvList,
      hmem g (by simp) anc (some ⟨ptag, left, rest⟩) hinv.1]

/-- Media leaf-invariant preservation, node level. -/
theorem processNode_textLeafInv :
    ∀ (t : TextNode) (cfg : MediaConfig) (anc : List Str)
      (pinfo : Option PInfo), textLeafInv t = true →
      textLeafInv (processNode cfg anc pinfo t) = true := by
  intro t
  induction t using TextNode.indOnText with
  | h tg tx a cs d i ih =>
    intro cfg anc pinfo hinv
    simp only [processNode]
    by_cases hm : (isMediaElement ⟨tg, tx, a, cs, d, i⟩ &&
        generateReplacementStr cfg anc pinfo ⟨tg, tx, a, cs, d, i⟩ ≠ []) = true
    · simp only [hm, if_true, ite_true]
      simp [textLeafInv, textLeafInvList, List.isEmpty]
    · simp only [Bool.not_eq_true] at hm
      simp only [hm, Bool.false_eq_true, if_false, ite_false]
      simp only [textLeafInv, Bool.and_eq_true] at hinv ⊢
      constructor
      · by_cases ht : tg = str "#text"
        · simp only [ht, if_true, ite_true, Bool.and_eq_true] at hinv ⊢
          obtain ⟨⟨ha, hcs⟩, -⟩ := hinv
          have hcs' : cs = [] := by
            cases cs with
            | nil => rfl
            | cons x xs => simp [List.isEmpty] at hcs
          have ha' : a = [] := by
            cases a with
            | nil => rfl
            | cons x xs => simp [List.isEmpty] at ha
          subst hcs'
          subst ha'
          simp [processKids, List.isEmpty]
        · simp [ht]
      · exact processKids_textLeafInv cfg cs [] _ _
          (fun g hg anc2 pinfo2 hg1 => ih g hg cfg anc2 pinfo2 hg1) hinv.2
          (by simp [textLeafInvList])

/-- C9: the `#text` leaf invariant (a `#text` node has no children and an
empty attribute map) holds for every tree `BuildTree` produces from a
well-formed DOM, and is preserved by content filtering (`filterTreeResult`,
the root `FilterTree` returns) and by media substitution
(`processNode` / `ProcessMediaInTree`). -/
theorem c9_text_leaf_invariant :
    (∀ (opts : BuilderOpts) (hs : List HtmlNode), htmlWfList hs = true →
      textLeafInv (BuildTree opts hs) = true) ∧
    (∀ (cfg : FilterConfig) (t : TextNode), textLeafInv t = true →
      textLeafInv (filterTreeResult cfg t) = true) ∧
    (∀ (cfg : MediaConfig) (anc : List Str) (pinfo : Option PInfo)
      (t : TextNode), textLeafInv t = true →
      textLeafInv (processNode cfg anc pinfo t) = true) ∧
    (∀ (cfg : MediaConfig) (t : TextNode), textLeafInv t = true →
      textLeafInv (ProcessMediaInTree cfg t) = true) := by
  refine ⟨?_, ?_, ?_, ?_⟩
  · intro opts hs hwf
    simp only [BuildTree, textLeafInv]
    simp [traverseNodes_textLeafInv hs opts 1 1 hwf,
      show ¬(str "document" = str "#text") by decide]
  · intro cfg t hinv
    cases hf : filterNode cfg t with
    | none => simp [filterTreeResult, hf]; decide
    | some f =>
      simpa [filterTreeResult, hf] using filterNode_textLeafInv t cfg f hinv hf
  · exact fun cfg anc pinfo t h => processNode_textLeafInv t cfg anc pinfo h
  · exact fun cfg t h => processNode_textLeafInv t cfg [] none h

/-- Witness for C9 at concrete inputs for each stage. -/
theorem c9_text_leaf_invariant_witness :
    htmlWfList [HtmlNode.element (str "p") [] [HtmlNode.text (str "hey")]] = true ∧
    textLeafInv (BuildTree defaultBuilderOpts
      [HtmlNode.element (str "p") [] [HtmlNode.text (str "hey")]]) = true ∧
    textLeafInv navExample = true ∧
    textLeafInv (filterTreeResult defaultFilterConfig navExample) = true ∧
    textLeafInv (ProcessMediaInTree defaultMediaConfig imgExample) = true :=
  ⟨by decide,
   c9_text_leaf_invariant.1 defaultBuilderOpts
     [HtmlNode.element (str "p") [] [HtmlNode.text (str "hey")]] (by decide),
   by decide,
   c9_text_leaf_invariant.2.1 defaultFilterConfig navExample (by decide),
   c9_text_leaf_invariant.2.2.2 defaultMediaConfig imgExample (by decide)⟩

/-- A concatenation with a non-empty left part is non-empty. -/
theorem append_ne_nil_left (a b : Str) (ha : a ≠ []) : a ++ b ≠ [] :=
  fun h => ha (List.append_eq_nil.mp h).1

/-- C4: an `img` node with a non-empty `alt` attribute and no associated
figcaption or title is mutated in place into a `#text` leaf whose text is
exactly `"An image: "` followed by the alt text; no `img` node remains at
that position. -/
theorem c4_img_alt_substitution (cfg : MediaConfig) (anc : List Str)
    (pinfo : Option PInfo) (n : TextNode) (altText : Str)
    (htag : n.tag = str "img")
    (halt : lookupAttr n.attrs (str "alt") = some altText)
    (hne : altText ≠ [])
    (hcap : findAssociatedCaption pinfo n = []) :
    processNode cfg anc pinfo n =
      ⟨str "#text", str "An image: " ++ altText, [], [], n.depth, n.index⟩ := by
  match n with
  | ⟨tg, tx, a, cs, d, i⟩ =>
    simp only [TextNode.tag] at htag
    subst htag
    simp only [TextNode.attrs] at halt
    have hga : getAttr a (str "alt") = altText := by simp [getAttr, halt]
    have him : isMediaElement ⟨str "img", tx, a, cs, d, i⟩ = true := rfl
    have hch : imageCanHandle ⟨str "img", tx, a, cs, d, i⟩ = true := rfl
    have e1 : toLowerStr (str "img") = str "img" := rfl
    have hext : imageExtract ⟨str "img", tx, a, cs, d, i⟩ =
        [⟨MediaType.IMAGE, altText, getAttr a (str "src"), altText⟩] := by
      simp [imageExtract, e1, hga, hne]
    have hdet : runDetectors ⟨str "img", tx, a, cs, d, i⟩ =
        some ⟨MediaType.IMAGE, altText, getAttr a (str "src"), altText⟩ := by
      simp [runDetectors, hch, hext]
    have e2 : ¬(defaultGeneratorConfig.imageFormat = str "markdown") := by decide
    have hrepl : generateReplacementStr cfg anc pinfo ⟨str "img", tx, a, cs, d, i⟩ =
        str "An image: " ++ altText := by
      simp [generateReplacementStr, hdet, hcap, createReplacement, hne,
        generateMarkdownFor, generateImageMarkdown, e2, joinSep]
    have hne2 : generateReplacementStr cfg anc pinfo
        ⟨str "img", tx, a, cs, d, i⟩ ≠ [] := by
      rw [hrepl]
      exact append_ne_nil_left _ _ (by decide)
    simp only [processNode, him, hne2, hrepl]
    simp
    intro h1
    exact absurd h1 (by decide)

/-- Witness for C4 at the spec's example image. -/
theorem c4_img_alt_substitution_witness :
    imgExample.tag = str "img" ∧
    lookupAttr imgExample.attrs (str "alt") =
      some (str "A fluffy orange cat sitting in a sunny window") ∧
    (str "A fluffy orange cat sitting in a sunny window" ≠ []) ∧
    findAssociatedCaption (some ⟨str "p", [], []⟩) imgExample = [] ∧
    processNode defaultMediaConfig [] (some ⟨str "p", [], []⟩) imgExample =
      ⟨str "#text",
       str "An image: A fluffy orange cat sitting in a sunny window",
       [], [], 2, 2⟩ := by
  refine ⟨rfl, rfl, by decide, by decide, ?_⟩
  rw [c4_img_alt_substitution defaultMediaConfig [] (some ⟨str "p", [], []⟩)
    imgExample (str "A fluffy orange cat sitting in a sunny window") rfl rfl
    (by decide) (by decide)]
  rfl

/-!
String lemmas used for the media-replacement non-emptiness argument (C8)
and the post-processing shape argument (C5).
-/

/-- A string starts with a non-whitespace character. -/
def headNonWS (s : Str) : Prop := ∃ c t, s = c :: t ∧ isWS c = false

/-- A non-whitespace head is in particular non-empty. -/
theorem headNonWS_ne_nil {s : Str} (h : headNonWS s) : s ≠ [] := by
  obtain ⟨c, t, rfl, -⟩ := h
  simp

/-- Left-trimming yields nothing or a string with non-whitespace head. -/
theorem trimLeftWS_head : ∀ s : Str, trimLeftWS s = [] ∨ headNonWS (trimLeftWS s) := by
  intro s
  induction s with
  | nil => left; rfl
  | cons c t ih =>
    by_cases h : isWS c = true
    · simpa [trimLeftWS, List.dropWhile_cons, h] using ih
    · right
      refine ⟨c, t, ?_, by simpa using h⟩
      simp [trimLeftWS, List.dropWhile_cons, h]

/-- Trimming yields nothing or a string with non-whitespace head. -/
theorem trimSpace_head (s : Str) :
    trimSpace s = [] ∨ headNonWS (trimSpace s) :=
  trimLeftWS_head (trimRightWS s)

/-- A join whose first element has a non-whitespace head does too. -/
theorem joinSep_head (sep : Str) (x : Str) (xs : List Str)
    (h : headNonWS x) : headNonWS (joinSep sep (x :: xs)) := by
  obtain ⟨c, t, rfl, hc⟩ := h
  cases xs with
  | nil => exact ⟨c, t, rfl, hc⟩
  | cons y ys => exact ⟨c, t ++ sep ++ joinSep sep (y :: ys), by simp [joinSep], hc⟩

/-- A join whose first element is non-empty is non-empty. -/
theorem joinSep_ne_nil (sep : Str) (x : Str) (xs : List Str) (h : x ≠ []) :
    joinSep sep (x :: xs) ≠ [] := by
  cases xs with
  | nil => simpa [joinSep] using h
  | cons y ys =>
    simp only [joinSep]
    intro hc
    exact h (List.append_eq_nil.mp ((List.append_eq_nil.mp hc).1)).1

/-- Recursively extracted node text is empty or has a non-whitespace head
(it is built from trimmed pieces joined by single spaces). -/
theorem getNodeTextR_head :
    ∀ t : TextNode, getNodeTextR t = [] ∨ headNonWS (getNodeTextR t) := by
  intro t
  induction t using TextNode.indOnText with
  | h tg tx a cs d i ih =>
    by_cases ht : tg = str "#text"
    · simpa [getNodeTextR, ht] using trimSpace_head tx
    · have hparts : ∀ p ∈ getNodeTextParts cs, headNonWS p := by
        intro p hp
        induction cs with
        | nil => cases hp
        | cons c rest ihc =>
          simp only [getNodeTextParts] at hp
          by_cases hc : getNodeTextR c = []
          · simp only [hc, if_true, ite_true] at hp
            exact ihc (fun y hy => ih y (by simp [hy])) hp
          · simp only [hc, if_false, ite_false] at hp
            rcases List.mem_cons.mp hp with rfl | hp2
            · rcases ih c (by simp) with h0 | h0
              · exact absurd h0 hc
              · exact h0
            · exact ihc (fun y hy => ih y (by simp [hy])) hp2
      simp only [getNodeTextR, ht, if_false, ite_false]
      cases hps : getNodeTextParts cs with
      | nil => left; simp [joinSep]
      | cons p ps =>
        right
        exact joinSep_head _ p ps (hparts p (by simp [hps]))

/-- Social-embed content text is empty or has a non-whitespace head. -/
theorem socialTextContent_head (cs : List TextNode) :
    socialTextContent cs = [] ∨ headNonWS (socialTextContent cs) := by
  have key : ∀ p ∈ cs.filterMap (fun c =>
      if toLowerStr c.tag = str "p" then
        let t := getNodeTextR c
        if t ≠ [] && !startsWith t (str "http") then some t else none
      else none), headNonWS p := by
    intro p hp
    obtain ⟨c, -, hc⟩ := List.mem_filterMap.mp hp
    by_cases h1 : toLowerStr c.tag = str "p"
    · simp only [h1, if_true, ite_true] at hc
      simp at hc
      obtain ⟨⟨hne', -⟩, hp'⟩ := hc
      subst hp'
      rcases getNodeTextR_head c with h0 | h0
      · exact absurd h0 hne'
      · exact h0
    · simp [h1] at hc
  unfold socialTextContent
  cases hps : cs.filterMap (fun c =>
      if toLowerStr c.tag = str "p" then
        let t := getNodeTextR c
        if t ≠ [] && !startsWith t (str "http") then some t else none
      else none) with
  | nil => left; simp [joinSep]
  | cons p ps =>
    right
    refine joinSep_head _ p ps (key p ?_)
    rw [hps]
    exact List.mem_cons_self p ps

/-- `splitRuns` never yields the empty list of pieces. -/
theorem splitRuns_ne_nil (p : Char → Bool) : ∀ s, splitRuns p s ≠ [] := by
  intro s
  induction s with
  | nil => simp [splitRuns]
  | cons c rest ih =>
    simp only [splitRuns]
    by_cases hc : p c = true
    · cases rest with
      | nil => simp [hc]
      | cons d t =>
        by_cases hd : p d = true
        · simpa [hc, hd] using ih
        · simp [hc, hd]
    · cases hr : splitRuns p rest with
      | nil => exact absurd hr ih
      | cons q qs => simp [hc, hr]

/-- No piece produced by `splitRuns` contains a separator character. -/
theorem splitRuns_no_sep (p : Char → Bool) :
    ∀ s w, w ∈ splitRuns p s → ∀ c ∈ w, p c = false := by
  intro s
  induction s with
  | nil =>
    intro w hw c hc
    simp [splitRuns] at hw
    subst hw
    cases hc
  | cons a rest ih =>
    intro w hw c hc
    simp only [splitRuns] at hw
    by_cases ha : p a = true
    · cases rest with
      | nil =>
        simp [ha] at hw
        rcases hw with rfl | rfl <;> cases hc
      | cons d t =>
        by_cases hd : p d = true
        · simp only [ha, hd, if_true, ite_true] at hw
          exact ih w hw c hc
        · simp only [ha, hd, if_true, ite_true, if_false, ite_false] at hw
          rcases List.mem_cons.mp hw with rfl | hw2
          · cases hc
          · exact ih w hw2 c hc
    · cases hr : splitRuns p rest with
      | nil => exact absurd hr (splitRuns_ne_nil p rest)
      | cons q qs =>
        simp only [ha, hr, if_false, ite_false] at hw
        rcases List.mem_cons.mp hw with rfl | hw2
        · rcases List.mem_cons.mp hc with rfl | hc2
          · simpa using ha
          · exact ih q (by simp [hr]) c hc2
        · exact ih w (by simp [hr, hw2]) c hc

/-- Words produced by `fieldsGo` are non-empty and whitespace-free. -/
theorem fieldsGo_words (s : Str) (w : Str) (hw : w ∈ fieldsGo s) :
    w ≠ [] ∧ ∀ c ∈ w, isWS c = false := by
  unfold fieldsGo at hw
  obtain ⟨hmem, hne⟩ := List.mem_filter.mp hw
  refine ⟨?_, splitRuns_no_sep isWS s w hmem⟩
  intro h
  subst h
  simp at hne

/-- Context words selected by `relevantContextWords` have a non-whitespace
head. -/
theorem relevantContextWords_head (context : Str) (w : Str)
    (hw : w ∈ relevantContextWords context) : headNonWS w := by
  unfold relevantContextWords at hw
  obtain ⟨hmem, -⟩ := List.mem_filter.mp hw
  obtain ⟨hne, hnw⟩ := fieldsGo_words (toLowerStr context) w hmem
  cases w with
  | nil => exact absurd rfl hne
  | cons c t => exact ⟨c, t, rfl, hnw c (by simp)⟩

/-- `headNonWS` survives the Go-style truncation `s[:k] ++ "..."`. -/
theorem headNonWS_truncate (s : Str) (k : Nat) (h : headNonWS s) :
    headNonWS (s.take k ++ str "...") := by
  obtain ⟨c, t, rfl, hc⟩ := h
  cases k with
  | zero => exact ⟨'.', str "..", rfl, rfl⟩
  | succ k => exact ⟨c, t.take k ++ str "...", by simp, hc⟩

theorem genDescriptionFromContext_head (maxLen : Nat) (context : Str) :
    headNonWS (genDescriptionFromContext maxLen context []) := by
  have himage : headNonWS (str "image") := ⟨'i', str "mage", rfl, rfl⟩
  unfold genDescriptionFromContext
  simp only [ne_eq, not_true_eq_false, if_false, ite_false, List.nil_append]
  by_cases hctx : context = []
  · simpa [hctx] using himage
  · simp only [hctx, not_false_eq_true, if_true, ite_true]
    cases hcw : relevantContextWords context with
    | nil => simpa using himage
    | cons w ws =>
      have hw : headNonWS (joinSep (str " ") (w :: ws)) :=
        joinSep_head _ w ws (relevantContextWords_head context w (by simp [hcw]))
      have hj : joinSep (str ", ") [joinSep (str " ") (w :: ws)] =
          joinSep (str " ") (w :: ws) := by simp [joinSep]
      simp only [List.cons_ne_nil, not_false_eq_true, if_true, ite_true, hj]
      split_ifs with hlen
      · exact headNonWS_truncate _ maxLen hw
      · exact hw


/-- `splitOnChar` never yields an empty piece list. -/
theorem splitOnChar_never_nil (sep : Char) : ∀ s, splitOnChar sep s ≠ [] := by
  intro s
  cases s with
  | nil => simp [splitOnChar]
  | cons c rest =>
    simp only [splitOnChar]
    cases h : splitOnChar sep rest with
    | nil => simp
    | cons p ps =>
      by_cases hc : c = sep <;> simp [hc]

theorem splitOnChar_cons_of_ne (sep c : Char) (s : Str) (p : Str) (ps : List Str)
    (hc : ¬c = sep) (h : splitOnChar sep s = p :: ps) :
    splitOnChar sep (c :: s) = (c :: p) :: ps := by
  simp [splitOnChar, h, hc]

theorem trimSpace_eq_nil_all_ws (l : Str) (h : trimSpace l = []) :
    ∀ c ∈ l, isWS c = true := by
  intro c hcl
  unfold trimSpace trimLeftWS trimRightWS trimLeftWS at h
  have hy : ∀ x ∈ (List.reverse l).dropWhile isWS, isWS x = true := by
    intro x hx
    exact List.dropWhile_eq_nil_iff.mp (by simpa using h) x (by simpa using hx)
  have : c ∈ List.reverse l := by simpa using hcl
  rw [← List.takeWhile_append_dropWhile (p := isWS) (l := List.reverse l)] at this
  rcases List.mem_append.mp this with h1 | h1
  · exact List.mem_takeWhile_imp h1
  · exact hy c h1

theorem generateSocialMarkdown_ne_nil (r : MediaReplacement)
    (h : headNonWS (if r.description = [] then r.alternative else r.description)) :
    generateSocialMarkdown r ≠ [] := by
  unfold generateSocialMarkdown
  obtain ⟨c, t, hct, hcw⟩ := h
  have hcne : ¬(c = '\n') := by
    intro hh
    subst hh
    simp [isWS] at hcw
  cases hsp : splitOnChar '\n' t with
  | nil => exact absurd hsp (splitOnChar_never_nil '\n' t)
  | cons p ps =>
    simp only [hct, splitOnChar_cons_of_ne '\n' c t p ps hcne hsp]
    have htr : ¬(trimSpace (c :: p) = []) := by
      intro hh
      have := trimSpace_eq_nil_all_ws (c :: p) hh c (by simp)
      rw [this] at hcw
      cases hcw
    simp only [List.filterMap_cons, ne_eq, htr, not_false_eq_true, if_true,
      ite_true]
    exact joinSep_ne_nil _ _ _ (append_ne_nil_left _ _ (by decide))

/-- The non-social generators all emit a fixed non-empty prefix. -/
theorem generateMarkdownFor_ne_nil_nonsocial (r : MediaReplacement)
    (h : ¬(r.type = MediaType.SOCIAL_EMBED)) :
    generateMarkdownFor defaultGeneratorConfig r ≠ [] := by
  unfold generateMarkdownFor
  cases htype : r.type with
  | IMAGE =>
    unfold generateImageMarkdown
    have e2 : ¬(defaultGeneratorConfig.imageFormat = str "markdown") := by decide
    simp only [e2, false_and, if_false, ite_false, decide_False, Bool.false_and]
    simp only [Bool.false_eq_true, if_false, ite_false]
    exact joinSep_ne_nil _ _ _ (append_ne_nil_left _ _ (by decide))
  | VIDEO =>
    unfold generateVideoMarkdown
    exact joinSep_ne_nil _ _ _ (append_ne_nil_left _ _ (by decide))
  | AUDIO =>
    unfold generateAudioMarkdown
    exact joinSep_ne_nil _ _ _ (append_ne_nil_left _ _ (by decide))
  | SOCIAL_EMBED => exact absurd htype h
  | INTERACTIVE =>
    unfold generateInteractiveMarkdown
    exact append_ne_nil_left _ _ (by decide)
  | CHART =>
    unfold generateDefaultMarkdown
    exact append_ne_nil_left _ _ (by decide)
  | DIAGRAM =>
    unfold generateDefaultMarkdown
    exact append_ne_nil_left _ _ (by decide)

/-- Every element extracted by the image detector has type IMAGE. -/
theorem imageExtract_type :
    ∀ (t : TextNode) (e : MediaElement), e ∈ imageExtract t →
      e.type = MediaType.IMAGE := by
  intro t
  induction t using TextNode.indOnText with
  | h tg tx a cs d i ih =>
    intro e he
    have hlist : ∀ (l : List TextNode),
        (∀ c ∈ l, ∀ e2 ∈ imageExtract c, e2.type = MediaType.IMAGE) →
        ∀ e2 ∈ imageExtractList l, e2.type = MediaType.IMAGE := by
      intro l
      induction l with
      | nil => intro _ e2 he2; cases he2
      | cons c rest ihl =>
        intro hmem e2 he2
        simp only [imageExtractList] at he2
        rcases List.mem_append.mp he2 with h1 | h1
        · by_cases hc : toLowerStr c.tag = str "img"
          · simp only [hc, if_true, ite_true] at h1
            exact hmem c (by simp) e2 h1
          · simp [hc] at h1
        · exact ihl (fun y hy => hmem y (by simp [hy])) e2 h1
    simp only [imageExtract] at he
    by_cases h1 : toLowerStr tg = str "img"
    · simp only [h1, if_true, ite_true, List.mem_singleton] at he
      subst he
      rfl
    · by_cases h2 : toLowerStr tg = str "picture"
      · simp only [h1, h2, if_true, ite_true, if_false, ite_false] at he
        exact hlist cs (fun c hc => ih c hc) e he
      · simp [h1, h2] at he

/-- Every element extracted by the video detector has type VIDEO. -/
theorem videoExtract_type (n : TextNode) (e : MediaElement)
    (he : e ∈ videoExtract n) : e.type = MediaType.VIDEO := by
  unfold videoExtract at he
  simp only [List.mem_singleton] at he
  subst he
  rfl

/-- Every element extracted by the audio detector has type AUDIO. -/
theorem audioExtract_type (n : TextNode) (e : MediaElement)
    (he : e ∈ audioExtract n) : e.type = MediaType.AUDIO := by
  unfold audioExtract at he
  simp only [List.mem_singleton] at he
  subst he
  rfl

/-- Every element extracted by the interactive detector has type
INTERACTIVE. -/
theorem interactiveExtract_type (n : TextNode) (e : MediaElement)
    (he : e ∈ interactiveExtract n) : e.type = MediaType.INTERACTIVE := by
  unfold interactiveExtract at he
  simp only [List.mem_singleton] at he
  subst he
  rfl

/-- The social detector's element: its description is the extracted content
text and it carries no URL. -/
theorem socialExtract_shape (n : TextNode) (e : MediaElement)
    (he : e ∈ socialExtract n) :
    e.type = MediaType.SOCIAL_EMBED ∧
    e.description = socialTextContent n.children ∧ e.url = [] := by
  unfold socialExtract at he
  simp only [List.mem_singleton] at he
  subst he
  exact ⟨rfl, rfl, rfl⟩

/-- Whenever the detector loop returns a SOCIAL_EMBED element, that element
came from the social detector: its description is the content text of the
node's children and its URL is empty. -/
theorem runDetectors_social (n : TextNode) (e : MediaElement)
    (hdet : runDetectors n = some e) (ht : e.type = MediaType.SOCIAL_EMBED) :
    e.description = socialTextContent n.children ∧ e.url = [] := by
  unfold runDetectors at hdet
  cases h1 : (if imageCanHandle n then imageExtract n else []).head? with
  | some e1 =>
    rw [h1, Option.some_orElse] at hdet
    replace hdet := Option.some.inj hdet
    subst hdet
    have he1 : e1 ∈ imageExtract n := by
      by_cases hc : imageCanHandle n = true
      · simp only [hc, if_true, ite_true] at h1
        exact List.mem_of_mem_head? h1
      · simp only [Bool.not_eq_true] at hc
        simp [hc] at h1
    rw [imageExtract_type n e1 he1] at ht
    cases ht
  | none =>
    rw [h1, Option.none_orElse] at hdet
    cases h2 : (if videoCanHandle n then videoExtract n else []).head? with
    | some e2 =>
      rw [h2, Option.some_orElse] at hdet
      replace hdet := Option.some.inj hdet
      subst hdet
      have he2 : e2 ∈ videoExtract n := by
        by_cases hc : videoCanHandle n = true
        · simp only [hc, if_true, ite_true] at h2
          exact List.mem_of_mem_head? h2
        · simp only [Bool.not_eq_true] at hc
          simp [hc] at h2
      rw [videoExtract_type n e2 he2] at ht
      cases ht
    | none =>
      rw [h2, Option.none_orElse] at hdet
      cases h3 : (if audioCanHandle n then audioExtract n else []).head? with
      | some e3 =>
        rw [h3, Option.some_orElse] at hdet
        replace hdet := Option.some.inj hdet
        subst hdet
        have he3 : e3 ∈ audioExtract n := by
          by_cases hc : audioCanHandle n = true
          · simp only [hc, if_true, ite_true] at h3
            exact List.mem_of_mem_head? h3
          · simp only [Bool.not_eq_true] at hc
            simp [hc] at h3
        rw [audioExtract_type n e3 he3] at ht
        cases ht
      | none =>
        rw [h3, Option.none_orElse] at hdet
        cases h4 : (if socialCanHandle n then socialExtract n else []).head? with
        | some e4 =>
          rw [h4, Option.some_orElse] at hdet
          replace hdet := Option.some.inj hdet
          subst hdet
          have he4 : e4 ∈ socialExtract n := by
            by_cases hc : socialCanHandle n = true
            · simp only [hc, if_true, ite_true] at h4
              exact List.mem_of_mem_head? h4
            · simp only [Bool.not_eq_true] at hc
              simp [hc] at h4
          exact (socialExtract_shape n e4 he4).2
        | none =>
          rw [h4, Option.none_orElse] at hdet
          have he5 : e ∈ interactiveExtract n := by
            by_cases hc : interactiveCanHandle n = true
            · simp only [hc, if_true, ite_true] at hdet
              exact List.mem_of_mem_head? hdet
            · simp only [Bool.not_eq_true] at hc
              simp [hc] at hdet
          rw [interactiveExtract_type n e he5] at ht
          cases ht

/-- Under the default media configuration the generated replacement string
is never empty (images, video, audio, interactive and fallback replacements
carry a fixed prefix; empty social-embed content is enhanced by
`generateDescriptionFromContext`, which always yields a word). -/
theorem generateReplacementStr_ne_nil (anc : List Str) (pinfo : Option PInfo)
    (n : TextNode) :
    generateReplacementStr defaultMediaConfig anc pinfo n ≠ [] := by
  unfold generateReplacementStr
  cases hdet : runDetectors n with
  | none =>
    simp only [hdet]
    apply generateMarkdownFor_ne_nil_nonsocial
    intro h
    simp [createFallbackReplacement] at h
  | some e =>
    simp only [hdet]
    by_cases hty : e.type = MediaType.SOCIAL_EMBED
    · obtain ⟨hdesc, hurl⟩ := runDetectors_social n e hdet hty
      have hr : (createReplacement defaultMediaConfig e
          (extractContext defaultMediaConfig anc pinfo n)
          (findAssociatedCaption pinfo n)).type = MediaType.SOCIAL_EMBED := by
        simp [createReplacement, hty]
      unfold generateMarkdownFor
      rw [hr]
      apply generateSocialMarkdown_ne_nil
      by_cases hc : socialTextContent n.children = []
      · have hrd : (createReplacement defaultMediaConfig e
            (extractContext defaultMediaConfig anc pinfo n)
            (findAssociatedCaption pinfo n)).description =
            genDescriptionFromContext 200
              (extractContext defaultMediaConfig anc pinfo n) [] := by
          simp [createReplacement, hdesc, hurl, hc, defaultMediaConfig]
        rw [hrd]
        have hh := genDescriptionFromContext_head 200
          (extractContext defaultMediaConfig anc pinfo n)
        rw [if_neg (headNonWS_ne_nil hh)]
        exact hh
      · rcases socialTextContent_head n.children with h0 | h0
        · exact absurd h0 hc
        · have hrd : (createReplacement defaultMediaConfig e
              (extractContext defaultMediaConfig anc pinfo n)
              (findAssociatedCaption pinfo n)).description =
              socialTextContent n.children := by
            simp [createReplacement, hdesc, hc, defaultMediaConfig]
          rw [hrd]
          rw [if_neg hc]
          exact h0
    · apply generateMarkdownFor_ne_nil_nonsocial
      intro h
      rw [show (createReplacement defaultMediaConfig e
          (extractContext defaultMediaConfig anc pinfo n)
          (findAssociatedCaption pinfo n)).type = e.type from rfl] at h
      exact hty h

/-- C8: every node the Media Substitutor detects as a media element is
mutated in place into a single `#text` leaf: children cleared, attributes
emptied, tag set to `#text`, text set to the generated replacement
string. -/
theorem c8_media_mutated_in_place (anc : List Str) (pinfo : Option PInfo)
    (n : TextNode) (hm : isMediaElement n = true) :
    processNode defaultMediaConfig anc pinfo n =
      ⟨str "#text", generateReplacementStr defaultMediaConfig anc pinfo n,
       [], [], n.depth, n.index⟩ := by
  match n with
  | ⟨tg, tx, a, cs, d, i⟩ =>
    have hne := generateReplacementStr_ne_nil anc pinfo ⟨tg, tx, a, cs, d, i⟩
    simp only [processNode, hm, hne, ne_eq, not_false_eq_true, decide_True,
      Bool.and_self, if_true, ite_true]

/-- Witness for C8 at a social-embed blockquote with no content (the
generated replacement is the enhanced fallback quote). -/
theorem c8_media_mutated_in_place_witness :
    isMediaElement ⟨str "blockquote", [],
      [(str "class", str "twitter-tweet")], [], 5, 7⟩ = true ∧
    processNode defaultMediaConfig [] none
      ⟨str "blockquote", [], [(str "class", str "twitter-tweet")], [], 5, 7⟩ =
      ⟨str "#text",
       generateReplacementStr defaultMediaConfig [] none
         ⟨str "blockquote", [], [(str "class", str "twitter-tweet")], [], 5, 7⟩,
       [], [], 5, 7⟩ ∧
    generateReplacementStr defaultMediaConfig [] none
      ⟨str "blockquote", [], [(str "class", str "twitter-tweet")], [], 5, 7⟩ =
      str "> image" :=
  ⟨by decide,
   c8_media_mutated_in_place [] none _ (by decide),
   by decide⟩

theorem splitOnChar_cons_sep (sep : Char) (s : Str) :
    splitOnChar sep (sep :: s) = [] :: splitOnChar sep s := by
  cases h : splitOnChar sep s with
  | nil => exact absurd h (splitOnChar_never_nil sep s)
  | cons p ps => simp [splitOnChar, h]

theorem splitOnChar_append_sep (sep : Char) :
    ∀ s : Str, splitOnChar sep (s ++ [sep]) = splitOnChar sep s ++ [[]] := by
  intro s
  induction s with
  | nil => simp [splitOnChar]
  | cons c rest ih =>
    by_cases hc : c = sep
    · subst hc
      rw [List.cons_append, splitOnChar_cons_sep, splitOnChar_cons_sep, ih]
      rfl
    · cases h : splitOnChar sep rest with
      | nil => exact absurd h (splitOnChar_never_nil sep rest)
      | cons p ps =>
        rw [List.cons_append,
          splitOnChar_cons_of_ne sep c (rest ++ [sep]) p (ps ++ [[]]) hc
            (by rw [ih, h]; rfl),
          splitOnChar_cons_of_ne sep c rest p ps hc h]
        rfl

theorem splitOnChar_no_sep (sep : Char) :
    ∀ (s : Str) (w : Str), w ∈ splitOnChar sep s → ∀ c ∈ w, ¬c = sep := by
  intro s
  induction s with
  | nil =>
    intro w hw c hc
    simp [splitOnChar] at hw
    subst hw
    cases hc
  | cons a rest ih =>
    intro w hw c hc
    by_cases ha : a = sep
    · subst ha
      rw [splitOnChar_cons_sep] at hw
      rcases List.mem_cons.mp hw with rfl | hw2
      · cases hc
      · exact ih w hw2 c hc
    · cases h : splitOnChar sep rest with
      | nil => exact absurd h (splitOnChar_never_nil sep rest)
      | cons p ps =>
        rw [splitOnChar_cons_of_ne sep a rest p ps ha h] at hw
        rcases List.mem_cons.mp hw with rfl | hw2
        · rcases List.mem_cons.mp hc with rfl | hc2
          · exact ha
          · exact ih p (by simp [h]) c hc2
        · exact ih w (by simp [h, hw2]) c hc

theorem splitOnChar_of_no_sep (sep : Char) (x : Str) (hx : ∀ c ∈ x, ¬c = sep) :
    splitOnChar sep x = [x] := by
  induction x with
  | nil => rfl
  | cons c rest ih =>
    have hc : ¬c = sep := hx c (by simp)
    have hr : splitOnChar sep rest = [rest] :=
      ih (fun d hd => hx d (by simp [hd]))
    rw [splitOnChar_cons_of_ne sep c rest rest [] hc hr]

theorem splitOnChar_append_no_sep (sep : Char) :
    ∀ (x t : Str), (∀ c ∈ x, ¬c = sep) →
      splitOnChar sep (x ++ sep :: t) = x :: splitOnChar sep t := by
  intro x
  induction x with
  | nil => intro t _; simpa using splitOnChar_cons_sep sep t
  | cons c x' ih =>
    intro t hx
    have hc : ¬c = sep := hx c (by simp)
    have hr := ih t (fun d hd => hx d (by simp [hd]))
    cases h : splitOnChar sep t with
    | nil => exact absurd h (splitOnChar_never_nil sep t)
    | cons p ps =>
      rw [h] at hr
      rw [List.cons_append,
        splitOnChar_cons_of_ne sep c (x' ++ sep :: t) x' (p :: ps) hc hr]

theorem splitOnChar_joinSep (sep : Char) :
    ∀ ls : List Str, ls ≠ [] → (∀ l ∈ ls, ∀ c ∈ l, ¬c = sep) →
      splitOnChar sep (joinSep [sep] ls) = ls := by
  intro ls
  induction ls with
  | nil => intro h _; exact absurd rfl h
  | cons x xs ih =>
    intro _ hmem
    cases xs with
    | nil =>
      simp only [joinSep]
      exact splitOnChar_of_no_sep sep x (hmem x (by simp))
    | cons y ys =>
      have : joinSep [sep] (x :: y :: ys) = x ++ sep :: joinSep [sep] (y :: ys) := by
        simp [joinSep]
      rw [this,
        splitOnChar_append_no_sep sep x (joinSep [sep] (y :: ys)) (hmem x (by simp)),
        ih (by simp) (fun l hl => hmem l (by simp [hl]))]

theorem splitOnChar_append_ne (sep c : Char) (hc : ¬c = sep) :
    ∀ xs : Str, ∃ init last, splitOnChar sep xs = init ++ [last] ∧
      splitOnChar sep (xs ++ [c]) = init ++ [last ++ [c]] := by
  intro xs
  induction xs with
  | nil =>
    refine ⟨[], [], rfl, ?_⟩
    simp [splitOnChar, hc]
  | cons a xs ih =>
    obtain ⟨init, last, h1, h2⟩ := ih
    by_cases ha : a = sep
    · subst ha
      refine ⟨[] :: init, last, ?_, ?_⟩
      · rw [splitOnChar_cons_sep, h1]
        rfl
      · rw [List.cons_append, splitOnChar_cons_sep, h2]
        rfl
    · cases init with
      | nil =>
        simp only [List.nil_append] at h1 h2
        refine ⟨[], a :: last, ?_, ?_⟩
        · rw [splitOnChar_cons_of_ne sep a xs last [] ha h1]
          rfl
        · rw [List.cons_append,
            splitOnChar_cons_of_ne sep a (xs ++ [c]) (last ++ [c]) [] ha h2]
          rfl
      | cons q init₂ =>
        refine ⟨(a :: q) :: init₂, last, ?_, ?_⟩
        · rw [splitOnChar_cons_of_ne sep a xs q (init₂ ++ [last]) ha (by
            rw [h1]; rfl)]
          rfl
        · rw [List.cons_append,
            splitOnChar_cons_of_ne sep a (xs ++ [c]) q (init₂ ++ [last ++ [c]])
              ha (by rw [h2]; rfl)]
          rfl

theorem isBlank_iff_all (l : Str) :
    isBlankLine l = true ↔ ∀ c ∈ l, isWS c = true := by
  constructor
  · intro h c hc
    apply trimSpace_eq_nil_all_ws l _ c hc
    unfold isBlankLine at h
    cases hh : trimSpace l with
    | nil => rfl
    | cons x xs => rw [hh] at h; simp [List.isEmpty] at h
  · intro h
    have h1 : (List.reverse l).dropWhile isWS = [] :=
      List.dropWhile_eq_nil_iff.mpr (fun x hx => h x (by simpa using hx))
    unfold isBlankLine trimSpace trimRightWS trimLeftWS
    rw [h1]
    rfl

theorem isBlank_cons_ws (c : Char) (hc : isWS c = true) (p : Str) :
    isBlankLine (c :: p) = isBlankLine p := by
  by_cases hb : isBlankLine p = true
  · rw [hb]
    refine (isBlank_iff_all _).mpr (fun d hd => ?_)
    rcases List.mem_cons.mp hd with rfl | hd2
    · exact hc
    · exact (isBlank_iff_all p).mp hb d hd2
  · have hb' : isBlankLine p = false := by simpa using hb
    rw [hb']
    cases hcp : isBlankLine (c :: p) with
    | false => rfl
    | true =>
      have hall := (isBlank_iff_all _).mp hcp
      exact absurd ((isBlank_iff_all p).mpr
        (fun d hd => hall d (by simp [hd]))) hb

theorem isBlank_append_ws (c : Char) (hc : isWS c = true) (l : Str) :
    isBlankLine (l ++ [c]) = isBlankLine l := by
  by_cases hb : isBlankLine l = true
  · rw [hb]
    refine (isBlank_iff_all _).mpr (fun d hd => ?_)
    rcases List.mem_append.mp hd with hd2 | hd2
    · exact (isBlank_iff_all l).mp hb d hd2
    · rcases List.mem_singleton.mp hd2 with rfl
      exact hc
  · have hb' : isBlankLine l = false := by simpa using hb
    rw [hb']
    cases hcp : isBlankLine (l ++ [c]) with
    | false => rfl
    | true =>
      have hall := (isBlank_iff_all _).mp hcp
      exact absurd ((isBlank_iff_all l).mpr
        (fun d hd => hall d (by simp [hd]))) hb

theorem noTwo_tail (a : Str) (ls : List Str)
    (h : noTwoBlankRun (a :: ls) = true) : noTwoBlankRun ls = true := by
  cases ls with
  | nil => rfl
  | cons b rest =>
    simp only [noTwoBlankRun, Bool.and_eq_true] at h
    exact h.2

theorem noTwo_cons_congr (a a' : Str) (ls : List Str)
    (h : isBlankLine a = isBlankLine a') :
    noTwoBlankRun (a :: ls) = noTwoBlankRun (a' :: ls) := by
  cases ls with
  | nil => rfl
  | cons b rest => simp [noTwoBlankRun, h]

theorem noTwo_dropLast (x : Str) :
    ∀ ls : List Str, noTwoBlankRun (ls ++ [x]) = true →
      noTwoBlankRun ls = true := by
  intro ls
  induction ls with
  | nil => intro _; rfl
  | cons a rest ih =>
    intro h
    cases rest with
    | nil => rfl
    | cons b rest2 =>
      simp only [List.cons_append, noTwoBlankRun, Bool.and_eq_true] at h ⊢
      refine ⟨h.1, ih ?_⟩
      have h2 := h.2
      simpa [noTwoBlankRun] using h2

theorem noTwo_append_last_congr (a a' : Str)
    (h : isBlankLine a = isBlankLine a') :
    ∀ init : List Str,
      noTwoBlankRun (init ++ [a]) = noTwoBlankRun (init ++ [a']) := by
  intro init
  induction init with
  | nil => rfl
  | cons x rest ih =>
    cases rest with
    | nil => simp [noTwoBlankRun, h]
    | cons y rest2 =>
      simp only [List.cons_append] at ih ⊢
      simp only [noTwoBlankRun]
      rw [ih]

theorem noThree_append_of_noTwo (x : Str) :
    ∀ ls : List Str, noTwoBlankRun ls = true →
      noThreeBlankRun (ls ++ [x]) = true := by
  intro ls
  induction ls with
  | nil => intro _; rfl
  | cons a rest ih =>
    intro h
    cases rest with
    | nil => rfl
    | cons b rest2 =>
      have h1 : (isBlankLine a && isBlankLine b) = false := by
        cases hab : (isBlankLine a && isBlankLine b) with
        | false => rfl
        | true =>
          exfalso
          have hh := h
          simp only [noTwoBlankRun, Bool.and_eq_true] at hh
          rw [hab] at hh
          simp at hh
      have h2 : noTwoBlankRun (b :: rest2) = true := noTwo_tail a _ h
      cases rest2 with
      | nil =>
        simp only [List.cons_append, List.nil_append, noThreeBlankRun]
        simp [h1]
      | cons d rest3 =>
        have ih2 := ih h2
        simp only [List.cons_append, noThreeBlankRun, Bool.and_eq_true] at ih2 ⊢
        refine ⟨?_, ih2⟩
        simp [h1]

theorem collapseBlank_mem :
    ∀ (ls : List Str) (prev : Bool) (x : Str), x ∈ collapseBlank prev ls →
      x = [] ∨ x ∈ ls := by
  intro ls
  induction ls with
  | nil => intro prev x hx; cases hx
  | cons line rest ih =>
    intro prev x hx
    simp only [collapseBlank] at hx
    by_cases hb : trimSpace line = []
    · simp only [hb, if_true, ite_true] at hx
      by_cases hp : prev = true
      · simp only [hp, if_true, ite_true] at hx
        rcases ih true x hx with h | h
        · exact Or.inl h
        · exact Or.inr (by simp [h])
      · have hp' : prev = false := by simpa using hp
        simp only [hp', Bool.false_eq_true, if_false, ite_false] at hx
        rcases List.mem_cons.mp hx with rfl | hx2
        · exact Or.inl rfl
        · rcases ih true x hx2 with h | h
          · exact Or.inl h
          · exact Or.inr (by simp [h])
    · simp only [hb, if_false, ite_false] at hx
      rcases List.mem_cons.mp hx with rfl | hx2
      · exact Or.inr (by simp)
      · rcases ih false x hx2 with h | h
        · exact Or.inl h
        · exact Or.inr (by simp [h])

theorem collapseBlank_head_true :
    ∀ (ls : List Str) (x : Str), (collapseBlank true ls).head? = some x →
      isBlankLine x = false := by
  intro ls
  induction ls with
  | nil => intro x hx; cases hx
  | cons line rest ih =>
    intro x hx
    simp only [collapseBlank] at hx
    by_cases hb : trimSpace line = []
    · simp only [hb, if_true, ite_true] at hx
      exact ih x hx
    · simp only [hb, if_false, ite_false, List.head?_cons,
        Option.some.injEq] at hx
      rw [← hx]
      unfold isBlankLine
      cases h : trimSpace line with
      | nil => exact absurd h hb
      | cons c cs => rfl

theorem collapseBlank_noTwo :
    ∀ (ls : List Str) (prev : Bool),
      noTwoBlankRun (collapseBlank prev ls) = true := by
  intro ls
  induction ls with
  | nil => intro prev; rfl
  | cons line rest ih =>
    intro prev
    simp only [collapseBlank]
    by_cases hb : trimSpace line = []
    · simp only [hb, if_true, ite_true]
      by_cases hp : prev = true
      · simp only [hp, if_true, ite_true]
        exact ih true
      · have hp' : prev = false := by simpa using hp
        simp only [hp', Bool.false_eq_true, if_false, ite_false]
        cases hout : collapseBlank true rest with
        | nil => rfl
        | cons y ys =>
          have hy : isBlankLine y = false :=
            collapseBlank_head_true rest y (by simp [hout])
          simp only [noTwoBlankRun, hy, Bool.and_false, Bool.not_false,
            Bool.true_and]
          have := ih true
          rw [hout] at this
          exact this
    · simp only [hb, if_false, ite_false]
      have hbl : isBlankLine line = false := by
        unfold isBlankLine
        cases h : trimSpace line with
        | nil => exact absurd h hb
        | cons c cs => rfl
      cases hout : collapseBlank false rest with
      | nil => rfl
      | cons y ys =>
        simp only [noTwoBlankRun, hbl, Bool.false_and, Bool.not_false,
          Bool.true_and]
        have := ih false
        rw [hout] at this
        exact this

theorem noTwo_lines_trimLeft :
    ∀ s : Str, noTwoBlankRun (splitOnChar '\n' s) = true →
      noTwoBlankRun (splitOnChar '\n' (trimLeftWS s)) = true := by
  intro s
  induction s with
  | nil => intro h; exact h
  | cons c rest ih =>
    intro h
    by_cases hc : isWS c = true
    · rw [show trimLeftWS (c :: rest) = trimLeftWS rest from by
        simp [trimLeftWS, List.dropWhile_cons, hc]]
      apply ih
      by_cases hnl : c = '\n'
      · subst hnl
        rw [splitOnChar_cons_sep] at h
        exact noTwo_tail _ _ h
      · cases hsp : splitOnChar '\n' rest with
        | nil => exact absurd hsp (splitOnChar_never_nil '\n' rest)
        | cons p ps =>
          rw [splitOnChar_cons_of_ne '\n' c rest p ps hnl hsp] at h
          rw [← noTwo_cons_congr (c :: p) p ps (isBlank_cons_ws c hc p)]
          exact h
    · rw [show trimLeftWS (c :: rest) = c :: rest from by
        simp [trimLeftWS, List.dropWhile_cons, hc]]
      exact h

theorem trimRight_append_one (s : Str) (c : Char) :
    trimRightWS (s ++ [c]) =
      if isWS c = true then trimRightWS s else s ++ [c] := by
  by_cases hc : isWS c = true
  · simp [trimRightWS, trimLeftWS, hc, List.dropWhile_cons]
  · simp [trimRightWS, trimLeftWS, hc, List.dropWhile_cons]

theorem noTwo_lines_trimRight :
    ∀ s : Str, noTwoBlankRun (splitOnChar '\n' s) = true →
      noTwoBlankRun (splitOnChar '\n' (trimRightWS s)) = true := by
  intro s
  induction s using List.reverseRecOn with
  | nil => intro h; exact h
  | append_singleton init c ih =>
    intro h
    rw [trimRight_append_one]
    by_cases hc : isWS c = true
    · simp only [hc, if_true, ite_true]
      apply ih
      by_cases hnl : c = '\n'
      · subst hnl
        rw [splitOnChar_append_sep] at h
        exact noTwo_dropLast _ _ h
      · obtain ⟨ini, last, h1, h2⟩ := splitOnChar_append_ne '\n' c hnl init
        rw [h2] at h
        rw [h1]
        rw [noTwo_append_last_congr last (last ++ [c])
          (isBlank_append_ws c hc last).symm]
        exact h
    · simp only [hc, Bool.false_eq_true, if_false, ite_false]
      exact h

theorem trimRight_getLast (u : Str) (c : Char)
    (h : (trimRightWS u).getLast? = some c) : isWS c = false := by
  unfold trimRightWS at h
  rw [List.getLast?_reverse] at h
  rcases trimLeftWS_head u.reverse with h0 | h0
  · rw [h0] at h
    cases h
  · obtain ⟨d, t, hdt, hd⟩ := h0
    rw [hdt] at h
    simp only [List.head?_cons, Option.some.injEq] at h
    rw [← h]
    exact hd

theorem trimSpace_getLast (u : Str) (c : Char)
    (h : (trimSpace u).getLast? = some c) : isWS c = false := by
  unfold trimSpace trimLeftWS at h
  have hsfx : List.dropWhile isWS (trimRightWS u) <:+ trimRightWS u :=
    List.dropWhile_suffix isWS
  obtain ⟨pre, hpre⟩ := hsfx
  apply trimRight_getLast u c
  rw [← hpre]
  cases hdw : List.dropWhile isWS (trimRightWS u) with
  | nil => rw [hdw] at h; cases h
  | cons x xs =>
    rw [hdw] at h
    rw [List.getLast?_append, h]
    rfl

/-- C5: for every non-nil tree and every render configuration, RenderTree
returns (with nil error) a string of the form `t ++ "\n"`: it ends with
exactly one trailing newline (the first/last characters of `t` are never
whitespace, so the newline is the only trailing whitespace and is unique),
has no leading or trailing whitespace other than that newline, and its
lines contain no run of three or more consecutive blank lines. -/
theorem c5_render_output_shape (cfg : RenderConfig) (root : TextNode) :
    ∃ t : Str,
      RenderTree cfg (some root) = Except.ok (t ++ str "\n") ∧
      (∀ c, t.head? = some c → isWS c = false) ∧
      (∀ c, t.getLast? = some c → isWS c = false) ∧
      noThreeBlankRun (splitOnChar '\n' (t ++ str "\n")) = true := by
  refine ⟨trimSpace (joinSep (str "\n") (collapseBlank false
      (splitOnChar '\n' (renderNode cfg initRenderState root)))), ?_, ?_, ?_, ?_⟩
  · rfl
  · intro c hc
    rcases trimLeftWS_head (trimRightWS (joinSep (str "\n") (collapseBlank false
        (splitOnChar '\n' (renderNode cfg initRenderState root))))) with h0 | h0
    · unfold trimSpace at hc
      rw [h0] at hc
      cases hc
    · obtain ⟨d, tl, hdt, hd⟩ := h0
      unfold trimSpace at hc
      rw [hdt] at hc
      simp only [List.head?_cons, Option.some.injEq] at hc
      rw [← hc]
      exact hd
  · intro c hc
    exact trimSpace_getLast _ c hc
  · have hsep : (str "\n") = ['\n'] := rfl
    rw [hsep, splitOnChar_append_sep]
    apply noThree_append_of_noTwo
    have hbase : noTwoBlankRun (splitOnChar '\n' (joinSep ['\n'] (collapseBlank
        false (splitOnChar '\n' (renderNode cfg initRenderState root))))) =
        true := by
      cases hls : collapseBlank false (splitOnChar '\n'
          (renderNode cfg initRenderState root)) with
      | nil => rfl
      | cons x xs =>
        have hmem : ∀ l ∈ x :: xs, ∀ c2 ∈ l, ¬c2 = '\n' := by
          intro l hl c2 hc2
          rcases collapseBlank_mem (splitOnChar '\n'
              (renderNode cfg initRenderState root)) false l
              (by rw [hls]; exact hl) with h | h
          · subst h
            cases hc2
          · exact splitOnChar_no_sep '\n'
              (renderNode cfg initRenderState root) l h c2 hc2
        rw [splitOnChar_joinSep '\n' (x :: xs) (by simp) hmem]
        rw [← hls]
        exact collapseBlank_noTwo _ false
    unfold trimSpace
    exact noTwo_lines_trimLeft _ (noTwo_lines_trimRight _ hbase)
